import Mathlib

/-!
# Ignition: configuration acquisition engine and unit-name validation

A shallow embedding of

* `config/v2_0/types/unit.go`  (the three `Validate` methods on unit names), and
* `internal/exec/engine.go`    (`Run`, `acquireConfig`, `fetchProviderConfig`,
  `renderConfig`, `fetchReferencedConfig`, `logReport`).

Go functions that return `(value, error)` are embedded as functions returning a
pair `value × Option Err` (`none` is Go's `nil` error), so that the value that
accompanies an error stays observable.  Everything the engine does to the outside
world (files, network, fetcher, providers, stage, logger) goes through the fields
of an environment record `Env W` over an arbitrary world type `W`; every call the
engine makes is also recorded, in program order, in the list of `Event`s returned
next to the result.
-/

namespace Ign

/-! ## Data model -/

/-- Modelled from the spec: Go `error` values; the packages declaring the sentinels
are not among the sources.  The sentinels are the ones `engine.go` compares against
(`errors.Err...`, `providers.ErrNoProvider`); every other error is `other`. -/
inductive Err where
  | ErrEngineConfiguration
  | ErrNoProvider
  | ErrCloudConfig
  | ErrScript
  | ErrEmpty
  | other (msg : String)
  deriving DecidableEq, Repr

/-- Go `[]byte`. -/
abbrev Bytes := List Nat

/-- Modelled from the spec: the kinds of a report entry (package `report` is not
among the sources): the four constants `logReport` switches on; the Go type is an
integer type, so any other value is possible as well. -/
inductive EntryKind where
  | EntryError
  | EntryWarning
  | EntryInfo
  | EntryDeprecated
  | unknown (code : Nat)
  deriving DecidableEq, Repr

/-- Modelled from the spec: `report.Entry`, kind, message, position and the
highlight text. -/
structure Entry where
  Kind : EntryKind
  Message : String
  Line : Nat
  Column : Nat
  Highlight : String
  deriving DecidableEq, Repr

/-- Modelled from the spec: `report.Report`, an ordered sequence of entries. -/
structure Report where
  Entries : List Entry
  deriving DecidableEq, Repr

/-- Modelled from the spec: `report.ReportFromError` of package
`config/validate/report`, which is not among the sources.  A violation yields a
report with a single entry of the given kind whose message is the error text. -/
def ReportFromError (msg : String) (kind : EntryKind) : Report :=
  ⟨[{ Kind := kind, Message := msg, Line := 0, Column := 0, Highlight := "" }]⟩

/-! ## `unit.go`: unit name validation -/

/-- The scan of Go's `path.Ext`, on the reversed path: walk from the last byte
towards the first, stop with the empty string at a slash, stop with the suffix
collected so far at a dot. -/
def extScan : List Char → List Char → List Char
  | [], _ => []
  | c :: rest, acc =>
    if c = '/' then []
    else if c = '.' then '.' :: acc
    else extScan rest (c :: acc)

/-- Go `path.Ext`: the suffix beginning at the final dot in the final
slash-separated element of the path, empty if there is no dot. -/
def Ext (p : String) : String :=
  String.mk (extScan p.data.reverse [])

/-- Go `strings.HasSuffix`, the meaning of "ends with" used in the statements. -/
def HasSuffix (s suffix : String) : Prop :=
  suffix.data <:+ s.data

instance (s suffix : String) : Decidable (HasSuffix s suffix) := by
  unfold HasSuffix
  infer_instance

/-- The extensions accepted by `SystemdUnitName.Validate`. -/
def systemdUnitExts : List String :=
  [".service", ".socket", ".device", ".mount", ".automount", ".swap", ".target",
   ".path", ".timer", ".snapshot", ".slice", ".scope"]

/-- The extensions accepted by `NetworkdUnitName.Validate`. -/
def networkdUnitExts : List String :=
  [".link", ".netdev", ".network"]

/-- `func (n SystemdUnitName) Validate() report.Report`. -/
def SystemdUnitName.Validate (n : String) : Report :=
  if Ext n ∈ systemdUnitExts then ⟨[]⟩
  else ReportFromError "invalid systemd unit extension" EntryKind.EntryError

/-- `func (n SystemdUnitDropInName) Validate() report.Report`. -/
def SystemdUnitDropInName.Validate (n : String) : Report :=
  if Ext n ∈ [".conf"] then ⟨[]⟩
  else ReportFromError "invalid systemd unit drop-in extension" EntryKind.EntryError

/-- `func (n NetworkdUnitName) Validate() report.Report`. -/
def NetworkdUnitName.Validate (n : String) : Report :=
  if Ext n ∈ networkdUnitExts then ⟨[]⟩
  else ReportFromError "invalid networkd unit extension" EntryKind.EntryError

/-! ## Configuration data model (`internal/config/types`) -/

/-- Modelled from the spec: `types.Verification`, an optional content hash. -/
structure Verification where
  Hash : Option String
  deriving DecidableEq, Repr

/-- Modelled from the spec: `types.ConfigReference`, a source and an optional
verification. -/
structure ConfigReference where
  Source : String
  Verification : Verification
  deriving DecidableEq, Repr

/-- Modelled from the spec: `types.Timeouts`, optional per-request and total
timeouts; `acquireConfig` sets `HTTPTotal`. -/
structure Timeouts where
  HTTPResponseHeaders : Option Int
  HTTPTotal : Option Int
  deriving DecidableEq, Repr

/-- Modelled from the spec: `types.CaReference`, a trust-root reference. -/
structure CaReference where
  Source : String
  Verification : Verification
  deriving DecidableEq, Repr

/-- Modelled from the spec: `types.IgnitionConfig`, the two directives read by
`renderConfig`. -/
structure IgnitionConfig where
  Append : List ConfigReference
  Replace : Option ConfigReference
  deriving DecidableEq, Repr

/-- Modelled from the spec: `types.TLS`. -/
structure TLS where
  CertificateAuthorities : List CaReference
  deriving DecidableEq, Repr

/-- Modelled from the spec: `types.Security`. -/
structure Security where
  TLS : TLS
  deriving DecidableEq, Repr

/-- Modelled from the spec: `types.Ignition`, with the fields `engine.go` reads. -/
structure Ignition where
  Config : IgnitionConfig
  Security : Security
  Timeouts : Timeouts
  Version : String
  deriving DecidableEq, Repr

/-- Modelled from the spec: `types.Filesystem`, as far as `Run` fills it in. -/
structure Filesystem where
  Name : String
  Path : Option String
  deriving DecidableEq, Repr

/-- Modelled from the spec: `types.File`; its content is opaque to the engine. -/
structure File where
  Path : String
  Contents : String
  deriving DecidableEq, Repr

/-- Modelled from the spec: `types.Storage`, two of its list sections. -/
structure Storage where
  Filesystems : List Filesystem
  Files : List File
  deriving DecidableEq, Repr

/-- Modelled from the spec: `types.Passwd`; users and groups are opaque to the
engine. -/
structure Passwd where
  Users : List String
  Groups : List String
  deriving DecidableEq, Repr

/-- Modelled from the spec: `types.Systemd`; units are opaque to the engine. -/
structure Systemd where
  Units : List String
  deriving DecidableEq, Repr

/-- Modelled from the spec: `types.Config`, the directives, timeouts and trust
roots the engine reads, and provisioning sections that are mergeable lists. -/
structure Config where
  Ignition : Ignition
  Storage : Storage
  Passwd : Passwd
  Systemd : Systemd
  deriving DecidableEq, Repr

/-- The zero value `types.Config{}`. -/
def Config.zero : Config :=
  { Ignition :=
      { Config := { Append := [], Replace := none }
        Security := { TLS := { CertificateAuthorities := [] } }
        Timeouts := { HTTPResponseHeaders := none, HTTPTotal := none }
        Version := "" }
    Storage := { Filesystems := [], Files := [] }
    Passwd := { Users := [], Groups := [] }
    Systemd := { Units := [] } }

/-- Go `url.URL`, as far as the engine looks at it. -/
structure URL where
  Scheme : String
  Opaque : String
  deriving DecidableEq, Repr

/-! ## Observable actions -/

/-- Modelled from the spec: the severities of the logger (`internal/log` is not among
the sources), one per method `engine.go` calls. -/
inductive Severity where
  | Crit
  | Warning
  | Info
  | Debug
  deriving DecidableEq, Repr

/-- An argument handed to a format string. -/
inductive LogArg where
  | entry (e : Entry)
  | str (s : String)
  | err (e : Err)
  | bytes (b : Bytes)
  deriving DecidableEq, Repr

/-- The three config providers tried by `fetchProviderConfig`, in source order:
`cmdline.FetchConfig`, `system.FetchConfig`, `e.OEMConfig.FetchFunc()`. -/
inductive Provider where
  | cmdline
  | system
  | oem
  deriving DecidableEq, Repr

/-- One call made by the engine.  `render` and `resolve` are bookkeeping records:
`render d` marks an invocation of `renderConfig` at recursion depth `d`, and
`resolve d ref` marks that the invocation at depth `d` hands `ref` to
`fetchReferencedConfig`. -/
inductive Event where
  | log (sev : Severity) (format : String) (args : List LogArg)
  | stderr (format : String) (args : List LogArg)
  | pushPrefix (pre : String)
  | popPrefix
  | readFile (path : String)
  | writeFile (path : String) (data : Bytes) (perm : Nat)
  | updateHttpTimeoutsAndCAs (timeouts : Timeouts) (cas : List CaReference)
  | rewriteCAsWithDataUrls (cas : List CaReference)
  | fetchToBuffer (u : URL) (headers : List (String × String))
  | parse (raw : Bytes)
  | fetchBaseConfig
  | fetchDefaultConfig
  | fetchConfig (p : Provider)
  | stageRun (stageName root : String) (cfg : Config)
  | render (depth : Nat)
  | resolve (depth : Nat) (cfgRef : ConfigReference)
  deriving DecidableEq, Repr

/-- The outcome of an engine function: the returned value, the world it leaves
behind and the calls it made, oldest first. -/
structure Out (W : Type) (α : Type) where
  val : α
  world : W
  events : List Event

/-- What a config provider returns: `(types.Config, report.Report, error)`. -/
abbrev Fetched := Config × Report × Option Err

/-- The collaborators of the engine that are not among the sources, as parameters.
Functions of the world `W` are the effectful ones and return the world they leave
behind; the others are pure. -/
structure Env (W : Type) where
  /-- `types.MaxVersion.String()`. -/
  MaxVersion : String
  /-- `resource.ConfigHeaders`. -/
  ConfigHeaders : List (String × String)
  /-- `config.Append(oldConfig, newConfig)`, the layer merge. -/
  Append : Config → Config → Config
  /-- `int(d.Seconds())` for a `time.Duration` `d` given in nanoseconds: Go converts to
  `float64` seconds and truncates, so the result is not always the exact quotient. -/
  Seconds : Int → Int
  /-- `url.Parse`. -/
  urlParse : String → URL × Option Err
  /-- `hex.EncodeToString` of `sha512.Sum512`. -/
  Sum512Hex : Bytes → String
  /-- `util.AssertValid(verification, data)`. -/
  AssertValid : Verification → Bytes → Option Err
  /-- `config.Parse(rawConfig)`. -/
  Parse : Bytes → Fetched
  /-- `json.Unmarshal(b, &cfg)` on a zero `cfg`: what `cfg` holds afterwards, and
  the error. -/
  Unmarshal : Bytes → Config × Option Err
  /-- `json.Marshal(cfg)`. -/
  Marshal : Config → Bytes × Option Err
  /-- `json.MarshalIndent(cfg, "", "  ")`. -/
  MarshalIndent : Config → Bytes × Option Err
  /-- `ioutil.ReadFile(path)`. -/
  ReadFile : W → String → (Bytes × Option Err) × W
  /-- `ioutil.WriteFile(path, data, perm)`. -/
  WriteFile : W → String → Bytes → Nat → Option Err × W
  /-- `e.Fetcher.UpdateHttpTimeoutsAndCAs(timeouts, cas)`. -/
  UpdateHttpTimeoutsAndCAs : W → Timeouts → List CaReference → Option Err × W
  /-- `e.Fetcher.RewriteCAsWithDataUrls(cas)`; it rewrites the slice in place, so the
  slice afterwards is returned as well. -/
  RewriteCAsWithDataUrls : W → List CaReference → (List CaReference × Option Err) × W
  /-- `e.Fetcher.FetchToBuffer(u, resource.FetchOptions{Headers: headers})`. -/
  FetchToBuffer : W → URL → List (String × String) → (Bytes × Option Err) × W
  /-- `system.FetchBaseConfig(e.Logger)`. -/
  FetchBaseConfig : W → Fetched × W
  /-- `system.FetchDefaultConfig(e.Logger)`. -/
  FetchDefaultConfig : W → Fetched × W
  /-- The provider functions, called with `*e.Fetcher`. -/
  FetchConfig : Provider → W → Fetched × W
  /-- `stages.Get(stageName).Create(e.Logger, e.Root, *e.Fetcher).Run(cfg)`. -/
  StageRun : W → String → String → Config → Option Err × W

/-- The `Engine` struct.  `Logger` and `Fetcher` say whether the pointer is non-nil;
the objects behind them live in the world, and `OEMConfig` is `Provider.oem`. -/
structure Engine where
  ConfigCache : String
  /-- A `time.Duration`, in nanoseconds. -/
  FetchTimeout : Int
  Logger : Bool
  Root : String
  Fetcher : Bool
  deriving DecidableEq, Repr

/-! ## `engine.go` -/

/-- The body of the loop of `logReport` for one entry. -/
def logEntry (entry : Entry) : List Event :=
  let entry := { entry with Highlight := "" }
  match entry.Kind with
  | EntryKind.EntryError => [Event.log Severity.Crit "%v" [LogArg.entry entry]]
  | EntryKind.EntryWarning => [Event.log Severity.Warning "%v" [LogArg.entry entry]]
  | EntryKind.EntryDeprecated =>
    [Event.log Severity.Warning
      "%v: the provided config format is deprecated and will not be supported in the future."
      [LogArg.entry entry]]
  | EntryKind.EntryInfo => [Event.log Severity.Info "%v" [LogArg.entry entry]]
  | EntryKind.unknown _ => []

/-- The loop of `logReport` over `r.Entries`. -/
def logEntries : List Entry → List Event
  | [] => []
  | entry :: rest => logEntry entry ++ logEntries rest

/-- `func (e Engine) logReport(r report.Report)`: the logger calls it makes. -/
def logReport (r : Report) : List Event :=
  logEntries r.Entries

/-- `func (e *Engine) fetchReferencedConfig(cfgRef types.ConfigReference)
(types.Config, error)`. -/
def fetchReferencedConfig {W : Type} (env : Env W) (w : W) (cfgRef : ConfigReference) :
    Out W (Config × Option Err) :=
  match env.urlParse cfgRef.Source with
  | (_, some err) => ⟨(Config.zero, some err), w, []⟩
  | (u, none) =>
    match env.FetchToBuffer w u env.ConfigHeaders with
    | ((_, some err), w1) =>
      ⟨(Config.zero, some err), w1, [Event.fetchToBuffer u env.ConfigHeaders]⟩
    | ((rawCfg, none), w1) =>
      let dbg : Event :=
        if u.Scheme ≠ "data" then
          Event.log Severity.Debug "fetched referenced config at %s with SHA512: %s"
            [LogArg.str cfgRef.Source, LogArg.str (env.Sum512Hex rawCfg)]
        else
          Event.log Severity.Debug "fetched referenced config from data url with SHA512: %s"
            [LogArg.str (env.Sum512Hex rawCfg)]
      match env.AssertValid cfgRef.Verification rawCfg with
      | some err =>
        ⟨(Config.zero, some err), w1, [Event.fetchToBuffer u env.ConfigHeaders, dbg]⟩
      | none =>
        match env.Parse rawCfg with
        | (_, r, some err) =>
          ⟨(Config.zero, some err), w1,
            [Event.fetchToBuffer u env.ConfigHeaders, dbg, Event.parse rawCfg] ++ logReport r⟩
        | (cfg, r, none) =>
          ⟨(cfg, none), w1,
            [Event.fetchToBuffer u env.ConfigHeaders, dbg, Event.parse rawCfg] ++ logReport r⟩

/-- The `for _, cfgRef := range cfg.Ignition.Config.Append` loop of `renderConfig`,
started with the accumulator `appendedCfg`; `rec` is the recursive call
`e.renderConfig`, which may fail to return (`none`). -/
def renderAppend {W : Type} (env : Env W) (depth : Nat)
    (rec : W → Config → Option (Out W (Config × Option Err))) :
    W → Config → List ConfigReference → Option (Out W (Config × Option Err))
  | w, appendedCfg, [] => some ⟨(appendedCfg, none), w, []⟩
  | w, appendedCfg, cfgRef :: rest =>
    let o1 := fetchReferencedConfig env w cfgRef
    match o1.val with
    | (_, some err) =>
      some ⟨(Config.zero, some err), o1.world, Event.resolve depth cfgRef :: o1.events⟩
    | (newCfg, none) =>
      let cfgForFetcherSettings := env.Append appendedCfg newCfg
      let upd := Event.updateHttpTimeoutsAndCAs cfgForFetcherSettings.Ignition.Timeouts
        cfgForFetcherSettings.Ignition.Security.TLS.CertificateAuthorities
      match env.UpdateHttpTimeoutsAndCAs o1.world cfgForFetcherSettings.Ignition.Timeouts
          cfgForFetcherSettings.Ignition.Security.TLS.CertificateAuthorities with
      | (some err, w2) =>
        some ⟨(Config.zero, some err), w2, Event.resolve depth cfgRef :: o1.events ++ [upd]⟩
      | (none, w2) =>
        match rec w2 newCfg with
        | none => none
        | some o3 =>
          match o3.val with
          | (_, some err) =>
            some ⟨(Config.zero, some err), o3.world,
              Event.resolve depth cfgRef :: o1.events ++ [upd] ++ o3.events⟩
          | (newCfg', none) =>
            match renderAppend env depth rec o3.world (env.Append appendedCfg newCfg') rest with
            | none => none
            | some o4 =>
              some ⟨o4.val, o4.world,
                Event.resolve depth cfgRef :: o1.events ++ [upd] ++ o3.events ++ o4.events⟩

/-- `func (e *Engine) renderConfig(cfg types.Config) (types.Config, error)`.
Go's recursion is unbounded; here `fuel` bounds the number of nested invocations,
and `none` says the bound was hit before the call returned.  `depth` is the
recursion depth of this invocation (used only in the `render`/`resolve` records). -/
def renderConfig {W : Type} (env : Env W) :
    Nat → Nat → W → Config → Option (Out W (Config × Option Err))
  | 0, _, _, _ => none
  | fuel + 1, depth, w, cfg =>
    match cfg.Ignition.Config.Replace with
    | some cfgRef =>
      let o1 := fetchReferencedConfig env w cfgRef
      match o1.val with
      | (_, some err) =>
        some ⟨(Config.zero, some err), o1.world,
          Event.render depth :: Event.resolve depth cfgRef :: o1.events⟩
      | (newCfg, none) =>
        let upd := Event.updateHttpTimeoutsAndCAs newCfg.Ignition.Timeouts
          newCfg.Ignition.Security.TLS.CertificateAuthorities
        match env.UpdateHttpTimeoutsAndCAs o1.world newCfg.Ignition.Timeouts
            newCfg.Ignition.Security.TLS.CertificateAuthorities with
        | (some err, w2) =>
          some ⟨(Config.zero, some err), w2,
            Event.render depth :: Event.resolve depth cfgRef :: o1.events ++ [upd]⟩
        | (none, w2) =>
          match renderConfig env fuel (depth + 1) w2 newCfg with
          | none => none
          | some o3 =>
            some ⟨o3.val, o3.world,
              Event.render depth :: Event.resolve depth cfgRef :: o1.events ++ [upd]
                ++ o3.events⟩
    | none =>
      match renderAppend env depth (renderConfig env fuel (depth + 1)) w cfg
          cfg.Ignition.Config.Append with
      | none => none
      | some o => some ⟨o.val, o.world, Event.render depth :: o.events⟩

/-- The `for _, fetcher := range fetchers` loop of `fetchProviderConfig`: `cur` holds
`cfg, r, err` as left by the previous iteration; the loop is left at the first
provider whose error is not `ErrNoProvider`. -/
def fetchLoop {W : Type} (env : Env W) : List Provider → W → Fetched → Out W Fetched
  | [], w, cur => ⟨cur, w, []⟩
  | fetcher :: rest, w, _ =>
    match env.FetchConfig fetcher w with
    | (res, w1) =>
      if res.2.2 ≠ some Err.ErrNoProvider then ⟨res, w1, [Event.fetchConfig fetcher]⟩
      else
        let o := fetchLoop env rest w1 res
        ⟨o.val, o.world, Event.fetchConfig fetcher :: o.events⟩

/-- `func (e *Engine) fetchProviderConfig() (types.Config, error)`. -/
def fetchProviderConfig {W : Type} (env : Env W) (fuel : Nat) (w : W) :
    Option (Out W (Config × Option Err)) :=
  let o := fetchLoop env [Provider.cmdline, Provider.system, Provider.oem] w
    (Config.zero, ⟨[]⟩, none)
  match o.val with
  | (_, r, some err) => some ⟨(Config.zero, some err), o.world, o.events ++ logReport r⟩
  | (cfg, r, none) =>
    let upd := Event.updateHttpTimeoutsAndCAs cfg.Ignition.Timeouts
      cfg.Ignition.Security.TLS.CertificateAuthorities
    match env.UpdateHttpTimeoutsAndCAs o.world cfg.Ignition.Timeouts
        cfg.Ignition.Security.TLS.CertificateAuthorities with
    | (some err, w2) =>
      some ⟨(Config.zero, some err), w2, o.events ++ logReport r ++ [upd]⟩
    | (none, w2) =>
      match renderConfig env fuel 0 w2 cfg with
      | none => none
      | some o3 => some ⟨o3.val, o3.world, o.events ++ logReport r ++ [upd] ++ o3.events⟩

/-- The permission bits `acquireConfig` passes to `ioutil.WriteFile`. -/
def cachePerm : Nat := 0o640

/-- `func (e *Engine) acquireConfig() (cfg types.Config, err error)`.  The results are
named, so a bare `return` yields whatever `cfg` and `err` hold at that point.
`int(e.FetchTimeout.Seconds())` is `env.Seconds e.FetchTimeout`. -/
def acquireConfig {W : Type} (env : Env W) (e : Engine) (fuel : Nat) (w : W) :
    Option (Out W (Config × Option Err)) :=
  match env.ReadFile w e.ConfigCache with
  | ((b, none), w1) =>
    -- `json.Unmarshal(b, &cfg)`: a failure is logged, and `err` is assigned anew below
    let cfg := (env.Unmarshal b).1
    let parseLog : List Event :=
      match (env.Unmarshal b).2 with
      | some err =>
        [Event.log Severity.Crit "failed to parse cached config: %v" [LogArg.err err]]
      | none => []
    let upd := Event.updateHttpTimeoutsAndCAs cfg.Ignition.Timeouts
      cfg.Ignition.Security.TLS.CertificateAuthorities
    match env.UpdateHttpTimeoutsAndCAs w1 cfg.Ignition.Timeouts
        cfg.Ignition.Security.TLS.CertificateAuthorities with
    | (some err, w2) =>
      some ⟨(cfg, some err), w2,
        [Event.readFile e.ConfigCache] ++ parseLog ++ [upd,
          Event.log Severity.Crit "failed to update timeouts and CAs for fetcher: %v"
            [LogArg.err err]]⟩
    | (none, w2) =>
      some ⟨(cfg, none), w2, [Event.readFile e.ConfigCache] ++ parseLog ++ [upd]⟩
  | ((_, some _), w1) =>
    let timeout : Int := env.Seconds e.FetchTimeout
    let upd0 := Event.updateHttpTimeoutsAndCAs
      { HTTPResponseHeaders := none, HTTPTotal := some timeout } []
    match env.UpdateHttpTimeoutsAndCAs w1
        { HTTPResponseHeaders := none, HTTPTotal := some timeout } [] with
    | (some err, w2) =>
      some ⟨(Config.zero, some err), w2,
        [Event.readFile e.ConfigCache, upd0,
          Event.log Severity.Crit "failed to update timeouts and CAs for fetcher: %v"
            [LogArg.err err]]⟩
    | (none, w2) =>
      match fetchProviderConfig env fuel w2 with
      | none => none
      | some o =>
        let pre := [Event.readFile e.ConfigCache, upd0] ++ o.events
        match o.val with
        | (cfg, some err) =>
          some ⟨(cfg, some err), o.world,
            pre ++ [Event.log Severity.Warning "failed to fetch config: %s" [LogArg.err err]]⟩
        | (cfg, none) =>
          let upd := Event.updateHttpTimeoutsAndCAs cfg.Ignition.Timeouts
            cfg.Ignition.Security.TLS.CertificateAuthorities
          match env.UpdateHttpTimeoutsAndCAs o.world cfg.Ignition.Timeouts
              cfg.Ignition.Security.TLS.CertificateAuthorities with
          | (some err, w3) =>
            some ⟨(cfg, some err), w3,
              pre ++ [upd,
                Event.log Severity.Crit "failed to update timeouts and CAs for fetcher: %v"
                  [LogArg.err err]]⟩
          | (none, w3) =>
            let rew := Event.rewriteCAsWithDataUrls
              cfg.Ignition.Security.TLS.CertificateAuthorities
            match env.RewriteCAsWithDataUrls w3
                cfg.Ignition.Security.TLS.CertificateAuthorities with
            | ((cas, some err), w4) =>
              some ⟨({ cfg with Ignition := { cfg.Ignition with
                        Security := { TLS := { CertificateAuthorities := cas } } } },
                      some err), w4,
                pre ++ [upd, rew,
                  Event.log Severity.Crit "error handling CAs: %v" [LogArg.err err]]⟩
            | ((cas, none), w4) =>
              let cfg' : Config := { cfg with Ignition := { cfg.Ignition with
                Security := { TLS := { CertificateAuthorities := cas } } } }
              match env.Marshal cfg' with
              | (_, some err) =>
                some ⟨(cfg', some err), w4,
                  pre ++ [upd, rew,
                    Event.log Severity.Crit "failed to marshal cached config: %v"
                      [LogArg.err err]]⟩
              | (b, none) =>
                match env.WriteFile w4 e.ConfigCache b cachePerm with
                | (some err, w5) =>
                  some ⟨(cfg', some err), w5,
                    pre ++ [upd, rew, Event.writeFile e.ConfigCache b cachePerm,
                      Event.log Severity.Crit "failed to write cached config: %v"
                        [LogArg.err err]]⟩
                | (none, w5) =>
                  some ⟨(cfg', none), w5,
                    pre ++ [upd, rew, Event.writeFile e.ConfigCache b cachePerm]⟩

/-- The tail of `Run` from `e.Logger.PushPrefix(stageName)` on, with the user layer
`cfg` settled; `defer e.Logger.PopPrefix()` runs on both ways out. -/
def runStage {W : Type} (env : Env W) (e : Engine) (stageName : String)
    (baseConfig systemBaseConfig cfg : Config) (w : W) : Out W (Option Err) :=
  let fullConfig := env.Append baseConfig (env.Append systemBaseConfig cfg)
  match env.StageRun w stageName e.Root fullConfig with
  | (some err, w1) =>
    let dump : Event :=
      match env.MarshalIndent fullConfig with
      | (_, some _) => Event.stderr "Could not marshal full config: %v" [LogArg.err err]
      | (tmp, none) => Event.stderr "Full config:\n%s" [LogArg.bytes tmp]
    ⟨some err, w1,
      [Event.pushPrefix stageName, Event.stageRun stageName e.Root fullConfig,
        Event.stderr "%s failed" [LogArg.str stageName], dump, Event.popPrefix]⟩
  | (none, w1) =>
    ⟨none, w1,
      [Event.pushPrefix stageName, Event.stageRun stageName e.Root fullConfig,
        Event.log Severity.Info "%s passed" [LogArg.str stageName], Event.popPrefix]⟩

/-- The local `baseConfig` of `Run`: the pinned version and the root filesystem. -/
def baseConfig {W : Type} (env : Env W) (e : Engine) : Config :=
  { Config.zero with
    Ignition := { Config.zero.Ignition with Version := env.MaxVersion }
    Storage := { Filesystems := [{ Name := "root", Path := some e.Root }], Files := [] } }

/-- `func (e Engine) Run(stageName string) error`.  (Where an error known to be
non-nil is logged, `err.toList.map LogArg.err` is the one-element argument list.) -/
def Run {W : Type} (env : Env W) (e : Engine) (fuel : Nat) (stageName : String) (w : W) :
    Option (Out W (Option Err)) :=
  if e.Fetcher = false ∨ e.Logger = false then
    some ⟨some Err.ErrEngineConfiguration, w,
      [Event.stderr "engine incorrectly configured\n" []]⟩
  else
    match env.FetchBaseConfig w with
    | ((systemBaseConfig, r, err0), w1) =>
      let ev0 := Event.fetchBaseConfig :: logReport r
      if err0 ≠ none ∧ err0 ≠ some Err.ErrNoProvider then
        some ⟨err0, w1,
          ev0 ++ [Event.log Severity.Crit "failed to acquire system base config: %v"
            (err0.toList.map LogArg.err)]⟩
      else
        match acquireConfig env e fuel w1 with
        | none => none
        | some o =>
          match o.val with
          | (cfg, none) =>
            let s := runStage env e stageName (baseConfig env e) systemBaseConfig cfg o.world
            some ⟨s.val, s.world, ev0 ++ o.events ++ s.events⟩
          | (_, some err) =>
            if err = Err.ErrCloudConfig ∨ err = Err.ErrScript ∨ err = Err.ErrEmpty then
              let info := Event.log Severity.Info "%v: ignoring user-provided config"
                [LogArg.err err]
              match env.FetchDefaultConfig o.world with
              | ((cfg, r2, err2), w2) =>
                let ev2 := ev0 ++ o.events ++ [info, Event.fetchDefaultConfig] ++ logReport r2
                if err2 ≠ none ∧ err2 ≠ some Err.ErrNoProvider then
                  some ⟨err2, w2,
                    ev2 ++ [Event.log Severity.Crit "failed to acquire default config: %v"
                      (err2.toList.map LogArg.err)]⟩
                else
                  let s := runStage env e stageName (baseConfig env e) systemBaseConfig cfg w2
                  some ⟨s.val, s.world, ev2 ++ s.events⟩
            else
              some ⟨some err, o.world,
                ev0 ++ o.events ++
                  [Event.log Severity.Crit "failed to acquire config: %v" [LogArg.err err]]⟩

/-! ## Vocabulary of the statements -/

/-- The references `renderConfig` follows from `cfg`: the replace reference when it
is set, the append list otherwise. -/
def activeRefs (cfg : Config) : List ConfigReference :=
  match cfg.Ignition.Config.Replace with
  | some cfgRef => [cfgRef]
  | none => cfg.Ignition.Config.Append

/-- An edge of the reference graph: in some world, one of the references followed
from `c` resolves to `c'`. -/
def Child {W : Type} (env : Env W) (c' c : Config) : Prop :=
  ∃ w cfgRef, cfgRef ∈ activeRefs c ∧ (fetchReferencedConfig env w cfgRef).val = (c', none)

/-- The reference graph below `c` has depth at most `k`, counted in configs: every
chain of references starting at `c` visits at most `k` configs. -/
inductive DepthLE {W : Type} (env : Env W) : Nat → Config → Prop where
  | intro (k : Nat) (c : Config) (h : ∀ c', Child env c' c → DepthLE env k c') :
      DepthLE env (k + 1) c

/-- The references that the `renderConfig` invocation at depth `d` handed to
`fetchReferencedConfig`, in the order of the calls. -/
def resolvedAt (d : Nat) : List Event → List ConfigReference
  | [] => []
  | Event.resolve d' cfgRef :: rest =>
    if d' = d then cfgRef :: resolvedAt d rest else resolvedAt d rest
  | _ :: rest => resolvedAt d rest

/-- Every reference of the append list resolves and renders successfully, one after
the other from world `w` with accumulated config `acc`: `frags` are the rendered
fragments, in order, and `w'` is the world after the last one.  Each step is what
one iteration of the loop does: resolve the reference, reconfigure the fetcher from
the merge of the accumulated config with the fragment as parsed, render it. -/
def AppendSteps {W : Type} (env : Env W) (fuel depth : Nat) :
    W → Config → List ConfigReference → List Config → W → Prop
  | w, _, [], [], w' => w' = w
  | w, acc, cfgRef :: rest, frag :: frags, w' =>
    ∃ newCfg w2 o3,
      (fetchReferencedConfig env w cfgRef).val = (newCfg, none) ∧
      env.UpdateHttpTimeoutsAndCAs (fetchReferencedConfig env w cfgRef).world
          (env.Append acc newCfg).Ignition.Timeouts
          (env.Append acc newCfg).Ignition.Security.TLS.CertificateAuthorities = (none, w2) ∧
      renderConfig env fuel (depth + 1) w2 newCfg = some o3 ∧
      o3.val = (frag, none) ∧
      AppendSteps env fuel depth o3.world (env.Append acc frag) rest frags w'
  | _, _, _, _, _ => False

/-- The predicate "is a call of a config provider". -/
def Event.isFetchConfig : Event → Bool
  | Event.fetchConfig _ => true
  | _ => false

/-- The predicate "is a call of `renderConfig` or of `fetchReferencedConfig`, or a
fetch". -/
def Event.isRendering : Event → Bool
  | Event.render _ => true
  | Event.resolve _ _ => true
  | Event.fetchToBuffer _ _ => true
  | Event.parse _ => true
  | _ => false

/-- The predicate "is a write of a file". -/
def Event.isWriteFile : Event → Bool
  | Event.writeFile _ _ _ => true
  | _ => false

/-- The predicate "is a fetcher update". -/
def Event.isUpdate : Event → Bool
  | Event.updateHttpTimeoutsAndCAs _ _ => true
  | _ => false

/-- The predicate "is an invocation of the stage". -/
def Event.isStageRun : Event → Bool
  | Event.stageRun _ _ _ => true
  | _ => false

/-- An entry with its highlight cleared. -/
def clearHighlight (entry : Entry) : Entry :=
  { entry with Highlight := "" }

/-- The log record the logging rule prescribes for one entry: `Error` at `Crit`,
`Warning` at `Warning`, `Deprecated` at `Warning` with the deprecation suffix, `Info`
at `Info`, always with the highlight cleared; nothing for any other kind. -/
def specLogRecord (entry : Entry) : Option Event :=
  match entry.Kind with
  | EntryKind.EntryError =>
    some (Event.log Severity.Crit "%v" [LogArg.entry (clearHighlight entry)])
  | EntryKind.EntryWarning =>
    some (Event.log Severity.Warning "%v" [LogArg.entry (clearHighlight entry)])
  | EntryKind.EntryDeprecated =>
    some (Event.log Severity.Warning
      "%v: the provided config format is deprecated and will not be supported in the future."
      [LogArg.entry (clearHighlight entry)])
  | EntryKind.EntryInfo =>
    some (Event.log Severity.Info "%v" [LogArg.entry (clearHighlight entry)])
  | EntryKind.unknown _ => none

/-- The timeouts `acquireConfig` installs when there is no cached config: only the
total timeout, `int(e.FetchTimeout.Seconds())`, from the command-line flag. -/
def flagTimeouts {W : Type} (env : Env W) (e : Engine) : Timeouts :=
  { HTTPResponseHeaders := none, HTTPTotal := some (env.Seconds e.FetchTimeout) }

/-- The environment `env` with another outcome of reading files. -/
def withReadFile {W : Type} (env : Env W) (rf : W → String → (Bytes × Option Err) × W) :
    Env W :=
  { env with ReadFile := rf }

/-! ## A concrete environment, for the examples -/

/-- Modelled from the spec: `config.Append` of package `internal/config`, which is
not among the sources.  Optional scalars: the upper value wins if present, else the
lower one is kept; list sections: concatenation, lower entries first; the
`replace`/`append` directives are not carried into the result. -/
def specAppend (lower upper : Config) : Config :=
  { Ignition :=
      { Config := { Append := [], Replace := none }
        Security := { TLS := { CertificateAuthorities :=
          lower.Ignition.Security.TLS.CertificateAuthorities ++
            upper.Ignition.Security.TLS.CertificateAuthorities } }
        Timeouts :=
          { HTTPResponseHeaders :=
              match upper.Ignition.Timeouts.HTTPResponseHeaders with
              | some t => some t
              | none => lower.Ignition.Timeouts.HTTPResponseHeaders
            HTTPTotal :=
              match upper.Ignition.Timeouts.HTTPTotal with
              | some t => some t
              | none => lower.Ignition.Timeouts.HTTPTotal }
        Version := if upper.Ignition.Version = "" then lower.Ignition.Version
          else upper.Ignition.Version }
    Storage :=
      { Filesystems := lower.Storage.Filesystems ++ upper.Storage.Filesystems
        Files := lower.Storage.Files ++ upper.Storage.Files }
    Passwd :=
      { Users := lower.Passwd.Users ++ upper.Passwd.Users
        Groups := lower.Passwd.Groups ++ upper.Passwd.Groups }
    Systemd := { Units := lower.Systemd.Units ++ upper.Systemd.Units } }

/-- A reference without a declared hash. -/
def ref (source : String) : ConfigReference := ⟨source, ⟨none⟩⟩

/-- A config with the given directives and files and nothing else. -/
def mkConfig (replace : Option ConfigReference) (append : List ConfigReference)
    (files : List File) : Config :=
  { Config.zero with
    Ignition := { Config.zero.Ignition with Config := { Append := append, Replace := replace } }
    Storage := { Filesystems := [], Files := files } }

/-- File `f1`. -/
def f1 : File := ⟨"/f1", "one"⟩

/-- File `f2`. -/
def f2 : File := ⟨"/f2", "two"⟩

/-- The documents of the example network, by the first byte of the body: `1` and `2`
are leaves with one file each, `3` replaces itself with the document at `loop`,
`4` appends `a` and `b`. -/
def demoParse (raw : Bytes) : Fetched :=
  match raw with
  | [1] => (mkConfig none [] [f1], ⟨[]⟩, none)
  | [2] => (mkConfig none [] [f2], ⟨[]⟩, none)
  | [3] => (mkConfig (some (ref "loop")) [] [], ⟨[]⟩, none)
  | [4] => (mkConfig none [ref "a", ref "b"] [], ⟨[]⟩, none)
  | _ => (Config.zero, ⟨[]⟩, some (Err.other "invalid config"))

/-- The example network: which body each source serves. -/
def demoFetch (u : URL) : Bytes × Option Err :=
  if u.Opaque = "a" then ([1], none)
  else if u.Opaque = "b" then ([2], none)
  else if u.Opaque = "loop" then ([3], none)
  else if u.Opaque = "ab" then ([4], none)
  else ([], some (Err.other "not found"))

/-- The example files: `hit` holds a cached config, `corrupt` holds content that
does not parse, every other path does not exist. -/
def demoReadFile (path : String) : Bytes × Option Err :=
  if path = "hit" then ([1], none)
  else if path = "corrupt" then ([0], none)
  else ([], some (Err.other "no such file"))

/-- An example environment over a world without state.  Durations are whole numbers
of seconds, far below the range where `float64` rounds; every declared hash fails
verification; the user config comes from the system provider and appends `a` and
`b`; the fetcher accepts every update. -/
def demoEnv : Env Unit where
  MaxVersion := "2.3.0"
  ConfigHeaders := []
  Append := specAppend
  Seconds := fun d => Int.tdiv d 1000000000
  urlParse := fun s => (⟨"http", s⟩, none)
  Sum512Hex := fun _ => "00"
  AssertValid := fun v _ =>
    match v.Hash with
    | some _ => some (Err.other "hash mismatch")
    | none => none
  Parse := demoParse
  Unmarshal := fun b => ((demoParse b).1, (demoParse b).2.2)
  Marshal := fun _ => ([7], none)
  MarshalIndent := fun _ => ([7], none)
  ReadFile := fun w path => (demoReadFile path, w)
  WriteFile := fun w _ _ _ => (none, w)
  UpdateHttpTimeoutsAndCAs := fun w _ _ => (none, w)
  RewriteCAsWithDataUrls := fun w cas => ((cas, none), w)
  FetchToBuffer := fun w u _ => (demoFetch u, w)
  FetchBaseConfig := fun w => ((Config.zero, ⟨[]⟩, some Err.ErrNoProvider), w)
  FetchDefaultConfig := fun w => ((mkConfig none [] [f2], ⟨[]⟩, none), w)
  FetchConfig := fun p w =>
    match p with
    | Provider.system => ((mkConfig none [ref "a", ref "b"] [], ⟨[]⟩, none), w)
    | _ => ((Config.zero, ⟨[]⟩, some Err.ErrNoProvider), w)
  StageRun := fun w _ _ _ => (none, w)

/-- The example environment with a fetcher that rejects every update. -/
def demoEnvNoUpdate : Env Unit :=
  { demoEnv with UpdateHttpTimeoutsAndCAs := fun w _ _ => (some (Err.other "bad CA"), w) }

/-- The example environment with a user config that is empty. -/
def demoEnvEmpty : Env Unit :=
  { demoEnv with FetchConfig := fun _ w => ((Config.zero, ⟨[]⟩, some Err.ErrEmpty), w) }

/-- An engine whose cache path is `cache`. -/
def demoEngine (cache : String) : Engine :=
  { ConfigCache := cache, FetchTimeout := 120000000000, Logger := true, Root := "/sysroot",
    Fetcher := true }

/-- A reference to `a` with a declared hash (which the example verifier rejects). -/
def badRef : ConfigReference := ⟨"a", ⟨some "deadbeef"⟩⟩

/-- The leaf document served at `a`. -/
def cfgA : Config := mkConfig none [] [f1]

/-- The leaf document served at `b`. -/
def cfgB : Config := mkConfig none [] [f2]

/-- The document served at `ab`, which appends `a` and `b`. -/
def cfgAB : Config := mkConfig none [ref "a", ref "b"] []

/-- A config that appends a source that is not served, then `b`. -/
def cfgFail : Config := mkConfig none [ref "missing", ref "b"] []

/-- The document served at `loop`, which replaces itself with the document at
`loop`. -/
def cfgLoop : Config := mkConfig (some (ref "loop")) [] []

/-! ## Unit names: proofs -/

theorem extScan_body (body pre acc : List Char)
    (hb : ∀ c ∈ body, c ≠ '/' ∧ c ≠ '.') :
    extScan (body ++ '.' :: pre) acc = '.' :: (body.reverse ++ acc) := by
  induction body generalizing acc with
  | nil => simp [extScan]
  | cons c cs ih =>
    have hc := hb c (by simp)
    have hcs : ∀ x ∈ cs, x ≠ '/' ∧ x ≠ '.' := fun x hx => hb x (by simp [hx])
    simp [extScan, hc.1, hc.2, ih (c :: acc) hcs]

theorem extScan_suffix (rev acc : List Char) :
    extScan rev acc = [] ∨ extScan rev acc <:+ rev.reverse ++ acc := by
  induction rev generalizing acc with
  | nil => simp [extScan]
  | cons c cs ih =>
    unfold extScan
    by_cases h1 : c = '/'
    · simp [h1]
    · by_cases h2 : c = '.'
      · right
        simp only [h1, h2, if_true, if_false, List.reverse_cons, List.append_assoc,
          List.singleton_append]
        exact List.suffix_append _ _
      · simp only [h1, h2, if_false, List.reverse_cons, List.append_assoc,
          List.singleton_append]
        exact ih (c :: acc)

theorem Ext_eq_iff (n s : String) (body : List Char) (hs : s.data = '.' :: body)
    (hb : ∀ c ∈ body, c ≠ '/' ∧ c ≠ '.') :
    Ext n = s ↔ HasSuffix n s := by
  unfold Ext HasSuffix
  rw [String.ext_iff, hs]
  constructor
  · intro h
    have h : extScan n.data.reverse [] = '.' :: body := h
    rcases extScan_suffix n.data.reverse [] with h0 | h0
    · rw [h] at h0
      exact absurd h0 (by simp)
    · rw [h] at h0
      simpa using h0
  · rintro ⟨pre, hpre⟩
    have hrev : n.data.reverse = body.reverse ++ '.' :: pre.reverse := by
      rw [← hpre]
      simp
    show extScan n.data.reverse [] = '.' :: body
    rw [hrev, extScan_body body.reverse pre.reverse [] (by
      intro x hx
      exact hb x (List.mem_reverse.mp hx))]
    simp

theorem systemd_ext_mem_iff (n : String) :
    Ext n ∈ systemdUnitExts ↔
      (HasSuffix n ".service" ∨ HasSuffix n ".socket" ∨ HasSuffix n ".device" ∨
        HasSuffix n ".mount" ∨ HasSuffix n ".automount" ∨ HasSuffix n ".swap" ∨
        HasSuffix n ".target" ∨ HasSuffix n ".path" ∨ HasSuffix n ".timer" ∨
        HasSuffix n ".snapshot" ∨ HasSuffix n ".slice" ∨ HasSuffix n ".scope") := by
  simp only [systemdUnitExts, List.mem_cons, List.mem_singleton, List.not_mem_nil, or_false]
  rw [Ext_eq_iff n ".service" _ rfl (by decide), Ext_eq_iff n ".socket" _ rfl (by decide),
    Ext_eq_iff n ".device" _ rfl (by decide), Ext_eq_iff n ".mount" _ rfl (by decide),
    Ext_eq_iff n ".automount" _ rfl (by decide), Ext_eq_iff n ".swap" _ rfl (by decide),
    Ext_eq_iff n ".target" _ rfl (by decide), Ext_eq_iff n ".path" _ rfl (by decide),
    Ext_eq_iff n ".timer" _ rfl (by decide), Ext_eq_iff n ".snapshot" _ rfl (by decide),
    Ext_eq_iff n ".slice" _ rfl (by decide), Ext_eq_iff n ".scope" _ rfl (by decide)]

theorem networkd_ext_mem_iff (n : String) :
    Ext n ∈ networkdUnitExts ↔
      (HasSuffix n ".link" ∨ HasSuffix n ".netdev" ∨ HasSuffix n ".network") := by
  simp only [networkdUnitExts, List.mem_cons, List.mem_singleton, List.not_mem_nil, or_false]
  rw [Ext_eq_iff n ".link" _ rfl (by decide), Ext_eq_iff n ".netdev" _ rfl (by decide),
    Ext_eq_iff n ".network" _ rfl (by decide)]

theorem dropin_ext_mem_iff (n : String) :
    Ext n ∈ [".conf"] ↔ HasSuffix n ".conf" := by
  simp only [List.mem_singleton]
  rw [Ext_eq_iff n ".conf" _ rfl (by decide)]

/-- C7. Unit name validation: a systemd unit name validates to the empty report
exactly when it ends with one of the twelve unit-type suffixes, a drop-in name
exactly when it ends with `.conf`, a networkd unit name exactly when it ends with
`.link`, `.netdev` or `.network`; every other report is the single `EntryError`
entry with the validator's invalid-extension message.  `foo.timer` and
`override.conf` pass, `foo.txt` and `override.toml` fail. -/
theorem unit_name_validation (n : String) :
    (SystemdUnitName.Validate n = ⟨[]⟩ ↔
      (HasSuffix n ".service" ∨ HasSuffix n ".socket" ∨ HasSuffix n ".device" ∨
        HasSuffix n ".mount" ∨ HasSuffix n ".automount" ∨ HasSuffix n ".swap" ∨
        HasSuffix n ".target" ∨ HasSuffix n ".path" ∨ HasSuffix n ".timer" ∨
        HasSuffix n ".snapshot" ∨ HasSuffix n ".slice" ∨ HasSuffix n ".scope")) ∧
    (SystemdUnitDropInName.Validate n = ⟨[]⟩ ↔ HasSuffix n ".conf") ∧
    (NetworkdUnitName.Validate n = ⟨[]⟩ ↔
      (HasSuffix n ".link" ∨ HasSuffix n ".netdev" ∨ HasSuffix n ".network")) ∧
    (SystemdUnitName.Validate n = ⟨[]⟩ ∨
      SystemdUnitName.Validate n =
        ⟨[⟨EntryKind.EntryError, "invalid systemd unit extension", 0, 0, ""⟩]⟩) ∧
    (SystemdUnitDropInName.Validate n = ⟨[]⟩ ∨
      SystemdUnitDropInName.Validate n =
        ⟨[⟨EntryKind.EntryError, "invalid systemd unit drop-in extension", 0, 0, ""⟩]⟩) ∧
    (NetworkdUnitName.Validate n = ⟨[]⟩ ∨
      NetworkdUnitName.Validate n =
        ⟨[⟨EntryKind.EntryError, "invalid networkd unit extension", 0, 0, ""⟩]⟩) ∧
    SystemdUnitName.Validate "foo.timer" = ⟨[]⟩ ∧
    SystemdUnitDropInName.Validate "override.conf" = ⟨[]⟩ ∧
    SystemdUnitName.Validate "foo.txt" ≠ ⟨[]⟩ ∧
    SystemdUnitDropInName.Validate "override.toml" ≠ ⟨[]⟩ := by
  refine ⟨?_, ?_, ?_, ?_, ?_, ?_, by decide, by decide, by decide, by decide⟩
  · rw [← systemd_ext_mem_iff]
    unfold SystemdUnitName.Validate
    split <;> simp_all [ReportFromError]
  · rw [← dropin_ext_mem_iff]
    unfold SystemdUnitDropInName.Validate
    split <;> simp_all [ReportFromError]
  · rw [← networkd_ext_mem_iff]
    unfold NetworkdUnitName.Validate
    split <;> simp_all [ReportFromError]
  · unfold SystemdUnitName.Validate
    split
    · exact Or.inl rfl
    · exact Or.inr rfl
  · unfold SystemdUnitDropInName.Validate
    split
    · exact Or.inl rfl
    · exact Or.inr rfl
  · unfold NetworkdUnitName.Validate
    split
    · exact Or.inl rfl
    · exact Or.inr rfl

/-! ## `logReport` -/

theorem logEntry_eq_spec (entry : Entry) :
    logEntry entry = (specLogRecord entry).toList := by
  obtain ⟨kind, msg, line, col, hl⟩ := entry
  cases kind <;> rfl

theorem logEntries_eq_spec (entries : List Entry) :
    logEntries entries = entries.filterMap specLogRecord := by
  induction entries with
  | nil => rfl
  | cons entry rest ih =>
    rw [logEntries, ih, logEntry_eq_spec]
    cases h : specLogRecord entry <;> simp [List.filterMap_cons, h]

theorem specLogRecord_clear (entry : Entry) :
    specLogRecord (clearHighlight entry) = specLogRecord entry := by
  obtain ⟨kind, msg, line, col, hl⟩ := entry
  cases kind <;> rfl

theorem logEntries_clear (entries : List Entry) :
    logEntries entries = logEntries (entries.map clearHighlight) := by
  have hcomp : specLogRecord ∘ clearHighlight = specLogRecord :=
    funext specLogRecord_clear
  rw [logEntries_eq_spec, logEntries_eq_spec, List.filterMap_map, hcomp]

theorem specLogRecord_highlight (entry en : Entry) (sev : Severity) (format : String)
    (args : List LogArg) (h : specLogRecord entry = some (Event.log sev format args))
    (hen : LogArg.entry en ∈ args) : en.Highlight = "" := by
  obtain ⟨kind, msg, line, col, hl⟩ := entry
  cases kind <;> simp [specLogRecord, clearHighlight] at h
  all_goals
    obtain ⟨_, _, rfl⟩ := h
    simp at hen
    rw [hen]

/-- C8. Secret redaction and severity mapping of `logReport`: the log output is, in
the order of the entries, one record per entry of kind Error, Warning, Deprecated
or Info (at Crit, Warning, Warning with the deprecation suffix, Info) and nothing
for other kinds; every entry handed to the logger has an empty highlight; and two
reports that differ only in highlight text produce the same log output. -/
theorem logReport_redaction (r r' : Report)
    (h : r.Entries.map clearHighlight = r'.Entries.map clearHighlight) :
    logReport r = r.Entries.filterMap specLogRecord ∧
    (∀ sev format args en, Event.log sev format args ∈ logReport r →
      LogArg.entry en ∈ args → en.Highlight = "") ∧
    logReport r = logReport r' := by
  refine ⟨logEntries_eq_spec _, ?_, ?_⟩
  · intro sev format args en hmem hen
    rw [logReport, logEntries_eq_spec, List.mem_filterMap] at hmem
    obtain ⟨entry, _, hentry⟩ := hmem
    exact specLogRecord_highlight entry en sev format args hentry hen
  · rw [logReport, logReport, logEntries_clear r.Entries, logEntries_clear r'.Entries, h]

/-- Two reports with a secret in the highlight of an error entry and of a deprecated
entry, and the same reports with other highlights: the log output is the same. -/
theorem logReport_redaction_witness :
    logReport ⟨[⟨EntryKind.EntryError, "bad", 1, 2, "password=hunter2"⟩,
        ⟨EntryKind.EntryDeprecated, "old", 0, 0, "token"⟩, ⟨EntryKind.unknown 9, "x", 0, 0, "s"⟩]⟩ =
      [Event.log Severity.Crit "%v" [LogArg.entry ⟨EntryKind.EntryError, "bad", 1, 2, ""⟩],
        Event.log Severity.Warning
          "%v: the provided config format is deprecated and will not be supported in the future."
          [LogArg.entry ⟨EntryKind.EntryDeprecated, "old", 0, 0, ""⟩]] ∧
    logReport ⟨[⟨EntryKind.EntryError, "bad", 1, 2, "password=hunter2"⟩,
        ⟨EntryKind.EntryDeprecated, "old", 0, 0, "token"⟩, ⟨EntryKind.unknown 9, "x", 0, 0, "s"⟩]⟩ =
      logReport ⟨[⟨EntryKind.EntryError, "bad", 1, 2, ""⟩,
        ⟨EntryKind.EntryDeprecated, "old", 0, 0, "other"⟩, ⟨EntryKind.unknown 9, "x", 0, 0, ""⟩]⟩ :=
  ⟨by decide,
    (logReport_redaction
      ⟨[⟨EntryKind.EntryError, "bad", 1, 2, "password=hunter2"⟩,
        ⟨EntryKind.EntryDeprecated, "old", 0, 0, "token"⟩, ⟨EntryKind.unknown 9, "x", 0, 0, "s"⟩]⟩
      ⟨[⟨EntryKind.EntryError, "bad", 1, 2, ""⟩,
        ⟨EntryKind.EntryDeprecated, "old", 0, 0, "other"⟩, ⟨EntryKind.unknown 9, "x", 0, 0, ""⟩]⟩
      (by decide)).2.2⟩

/-! ## `fetchReferencedConfig` and the append loop -/

theorem fetchReferencedConfig_gate {W : Type} (env : Env W) (w w1 : W)
    (cfgRef : ConfigReference) (u : URL) (rawCfg : Bytes) (err : Err)
    (hu : env.urlParse cfgRef.Source = (u, none))
    (hf : env.FetchToBuffer w u env.ConfigHeaders = ((rawCfg, none), w1))
    (hv : env.AssertValid cfgRef.Verification rawCfg = some err) :
    (fetchReferencedConfig env w cfgRef).val = (Config.zero, some err) ∧
    (fetchReferencedConfig env w cfgRef).world = w1 ∧
    ∀ raw, Event.parse raw ∉ (fetchReferencedConfig env w cfgRef).events := by
  simp only [fetchReferencedConfig, hu, hf, hv]
  refine ⟨trivial, trivial, ?_⟩
  intro raw hmem
  simp only [List.mem_cons, List.mem_singleton, List.not_mem_nil, or_false] at hmem
  rcases hmem with h | h
  · exact Event.noConfusion h
  · split at h <;> exact Event.noConfusion h

theorem renderAppend_steps {W : Type} (env : Env W) (fuel depth : Nat)
    (pre rest : List ConfigReference) :
    ∀ (w : W) (acc : Config) (frags : List Config) (w' : W),
      AppendSteps env fuel depth w acc pre frags w' →
      ∃ evs, renderAppend env depth (renderConfig env fuel (depth + 1)) w acc (pre ++ rest) =
        (renderAppend env depth (renderConfig env fuel (depth + 1)) w'
          (frags.foldl env.Append acc) rest).map
          (fun o => ⟨o.val, o.world, evs ++ o.events⟩) := by
  induction pre with
  | nil =>
    intro w acc frags w' h
    cases frags with
    | nil =>
      simp only [AppendSteps] at h
      subst h
      refine ⟨[], ?_⟩
      simp only [List.nil_append, List.foldl_nil]
      cases renderAppend env depth (renderConfig env fuel (depth + 1)) w' acc rest <;> rfl
    | cons frag frags => simp [AppendSteps] at h
  | cons cfgRef pre ih =>
    intro w acc frags w' h
    cases frags with
    | nil => simp [AppendSteps] at h
    | cons frag frags =>
      simp only [AppendSteps] at h
      obtain ⟨newCfg, w2, o3, h1, h2, h3, h4, h5⟩ := h
      obtain ⟨evs, hevs⟩ := ih o3.world (env.Append acc frag) frags w' h5
      refine ⟨Event.resolve depth cfgRef :: (fetchReferencedConfig env w cfgRef).events ++
        [Event.updateHttpTimeoutsAndCAs (env.Append acc newCfg).Ignition.Timeouts
          (env.Append acc newCfg).Ignition.Security.TLS.CertificateAuthorities] ++
        o3.events ++ evs, ?_⟩
      rw [List.cons_append]
      simp only [renderAppend, h1, h2, h3, h4, List.foldl_cons]
      rw [hevs]
      cases renderAppend env depth (renderConfig env fuel (depth + 1)) w'
        (List.foldl env.Append (env.Append acc frag) frags) rest <;>
        simp [List.append_assoc]

theorem foldl_section {α : Type} (merge : Config → Config → Config) (sec : Config → List α)
    (hsec : ∀ a b, sec (merge a b) = sec a ++ sec b) (frags : List Config) :
    ∀ acc, sec (frags.foldl merge acc) = sec acc ++ frags.flatMap sec := by
  induction frags with
  | nil => intro acc; simp
  | cons frag frags ih =>
    intro acc
    rw [List.foldl_cons, ih, hsec, List.flatMap_cons, List.append_assoc]

/-! ## The verification gate -/

/-- C1. Verification gate: when the source of a reference parses as a URL, its fetch
succeeds with bytes `rawCfg` and `util.AssertValid` returns an error on them, then
`fetchReferencedConfig` returns that error with the zero `Config` and makes no call
of `config.Parse`; consequently `renderConfig` returns that error with the zero
`Config` on every config whose replace is this reference, and on every config
without replace whose append list reaches this reference (the earlier append
references having resolved and rendered). -/
theorem verification_gate {W : Type} (env : Env W) (w w1 : W)
    (cfgRef : ConfigReference) (u : URL) (rawCfg : Bytes) (err : Err)
    (hu : env.urlParse cfgRef.Source = (u, none))
    (hf : env.FetchToBuffer w u env.ConfigHeaders = ((rawCfg, none), w1))
    (hv : env.AssertValid cfgRef.Verification rawCfg = some err) :
    (fetchReferencedConfig env w cfgRef).val = (Config.zero, some err) ∧
    (∀ raw, Event.parse raw ∉ (fetchReferencedConfig env w cfgRef).events) ∧
    (∀ fuel depth cfg, cfg.Ignition.Config.Replace = some cfgRef →
      ∃ o, renderConfig env (fuel + 1) depth w cfg = some o ∧
        o.val = (Config.zero, some err) ∧ ∀ raw, Event.parse raw ∉ o.events) ∧
    (∀ fuel depth cfg w0 pre post frags,
      cfg.Ignition.Config.Replace = none →
      cfg.Ignition.Config.Append = pre ++ cfgRef :: post →
      AppendSteps env fuel depth w0 cfg pre frags w →
      ∃ o, renderConfig env (fuel + 1) depth w0 cfg = some o ∧
        o.val = (Config.zero, some err)) := by
  obtain ⟨hval, _, hparse⟩ := fetchReferencedConfig_gate env w w1 cfgRef u rawCfg err hu hf hv
  refine ⟨hval, hparse, ?_, ?_⟩
  · intro fuel depth cfg hrep
    simp only [renderConfig, hrep, hval]
    refine ⟨_, rfl, rfl, ?_⟩
    intro raw hmem
    simp only [List.mem_cons] at hmem
    rcases hmem with h | h | h
    · exact Event.noConfusion h
    · exact Event.noConfusion h
    · exact hparse raw h
  · intro fuel depth cfg w0 pre post frags hrep happ hsteps
    obtain ⟨evs, hevs⟩ := renderAppend_steps env fuel depth pre (cfgRef :: post) w0 cfg frags w hsteps
    simp only [renderConfig, hrep, happ, hevs, renderAppend, hval, Option.map_some']
    exact ⟨_, rfl, rfl⟩

/-! ## Replace -/

/-- C2. Replace discards locally-defined sections: when `cfg` has its replace set to
a reference that resolves to `newCfg` and the fetcher update succeeds, rendering
`cfg` gives what rendering `newCfg` gives (value and world, one nested invocation
deeper); and any two configs with the same replace reference render to the same
outcome, whatever their other sections and append lists. -/
theorem replace_discards {W : Type} (env : Env W) (depth : Nat) (w w2 : W)
    (cfg newCfg : Config) (cfgRef : ConfigReference)
    (hrep : cfg.Ignition.Config.Replace = some cfgRef)
    (hres : (fetchReferencedConfig env w cfgRef).val = (newCfg, none))
    (hupd : env.UpdateHttpTimeoutsAndCAs (fetchReferencedConfig env w cfgRef).world
      newCfg.Ignition.Timeouts newCfg.Ignition.Security.TLS.CertificateAuthorities =
        (none, w2)) :
    (∀ fuel, (renderConfig env (fuel + 1) depth w cfg).map (fun o => (o.val, o.world)) =
      (renderConfig env fuel (depth + 1) w2 newCfg).map (fun o => (o.val, o.world))) ∧
    (∀ res,
      (∃ fuel, (renderConfig env fuel depth w cfg).map (fun o => (o.val, o.world)) = some res) ↔
      (∃ fuel, (renderConfig env fuel (depth + 1) w2 newCfg).map (fun o => (o.val, o.world)) =
        some res)) ∧
    (∀ cfg' fuel d, cfg'.Ignition.Config.Replace = some cfgRef →
      renderConfig env fuel d w cfg' = renderConfig env fuel d w cfg) := by
  have hstep : ∀ fuel, (renderConfig env (fuel + 1) depth w cfg).map (fun o => (o.val, o.world)) =
      (renderConfig env fuel (depth + 1) w2 newCfg).map (fun o => (o.val, o.world)) := by
    intro fuel
    simp only [renderConfig, hrep, hres, hupd]
    cases renderConfig env fuel (depth + 1) w2 newCfg <;> rfl
  refine ⟨hstep, ?_, ?_⟩
  · intro res
    constructor
    · rintro ⟨fuel, h⟩
      cases fuel with
      | zero => simp [renderConfig] at h
      | succ fuel => exact ⟨fuel, (hstep fuel).symm.trans h⟩
    · rintro ⟨fuel, h⟩
      exact ⟨fuel + 1, (hstep fuel).trans h⟩
  · intro cfg' fuel d hrep'
    cases fuel with
    | zero => rfl
    | succ fuel => simp only [renderConfig, hrep, hrep']

/-! ## Append -/

/-- C3. Append order preservation: when `cfg` has no replace and every reference of
its append list resolves and renders successfully, to the fragments `frags`,
`renderConfig` returns the left fold of the merge over the fragments starting from
`cfg` (accumulated result as lower operand, fragment as upper operand); so under a
merge that concatenates a list section, that section of the result is `cfg`'s own
entries followed by the fragments' entries in reference order; and with an empty
append list the result is `cfg` unchanged. -/
theorem append_order {W : Type} (env : Env W) (fuel depth : Nat) (w w' : W)
    (cfg : Config) (frags : List Config)
    (hrep : cfg.Ignition.Config.Replace = none)
    (hsteps : AppendSteps env fuel depth w cfg cfg.Ignition.Config.Append frags w') :
    ∃ o, renderConfig env (fuel + 1) depth w cfg = some o ∧
      o.val = (frags.foldl env.Append cfg, none) ∧
      o.world = w' ∧
      (∀ (α : Type) (sec : Config → List α),
        (∀ a b, sec (env.Append a b) = sec a ++ sec b) →
        sec o.val.1 = sec cfg ++ frags.flatMap sec) ∧
      (cfg.Ignition.Config.Append = [] → o.val.1 = cfg) := by
  obtain ⟨evs, hevs⟩ :=
    renderAppend_steps env fuel depth cfg.Ignition.Config.Append [] w cfg frags w' hsteps
  rw [List.append_nil] at hevs
  simp only [renderConfig, hrep, hevs, renderAppend, Option.map_some']
  refine ⟨_, rfl, rfl, rfl, ?_, ?_⟩
  · intro α sec hsec
    exact foldl_section env.Append sec hsec frags cfg
  · intro hnil
    rw [hnil] at hsteps
    cases frags with
    | nil => rfl
    | cons frag frags => simp [AppendSteps] at hsteps

/-! ## Examples for the rendering theorems -/

theorem appendSteps_a (acc : Config) :
    AppendSteps demoEnv 1 0 () acc [ref "a"] [cfgA] () := by
  simp only [AppendSteps]
  exact ⟨cfgA, (), ⟨(cfgA, none), (), [Event.render 1]⟩, rfl, rfl, rfl, rfl, trivial⟩

theorem appendSteps_ab (acc : Config) :
    AppendSteps demoEnv 1 0 () acc [ref "a", ref "b"] [cfgA, cfgB] () := by
  simp only [AppendSteps]
  exact ⟨cfgA, (), ⟨(cfgA, none), (), [Event.render 1]⟩, rfl, rfl, rfl, rfl,
    cfgB, (), ⟨(cfgB, none), (), [Event.render 1]⟩, rfl, rfl, rfl, rfl, trivial⟩

/-- The reference `badRef` declares a hash that fails verification: resolving it,
rendering a config that replaces itself with it, and rendering a config that
appends `a`, then it, then `b`, all return the verification error and the zero
config. -/
theorem verification_gate_witness :
    (fetchReferencedConfig demoEnv () badRef).val =
      (Config.zero, some (Err.other "hash mismatch")) ∧
    (∃ o, renderConfig demoEnv 1 0 () (mkConfig (some badRef) [ref "b"] [f2]) = some o ∧
      o.val = (Config.zero, some (Err.other "hash mismatch"))) ∧
    (∃ o, renderConfig demoEnv 2 0 () (mkConfig none [ref "a", badRef, ref "b"] [f2]) = some o ∧
      o.val = (Config.zero, some (Err.other "hash mismatch"))) :=
  have h := verification_gate demoEnv () () badRef ⟨"http", "a"⟩ [1]
    (Err.other "hash mismatch") rfl rfl rfl
  ⟨h.1,
    (h.2.2.1 0 0 (mkConfig (some badRef) [ref "b"] [f2]) rfl).imp
      (fun _ ho => ⟨ho.1, ho.2.1⟩),
    h.2.2.2 1 0 (mkConfig none [ref "a", badRef, ref "b"] [f2]) () [ref "a"] [ref "b"] [cfgA]
      rfl rfl (appendSteps_a _)⟩

/-- A config that replaces itself with the document at `ab` and has a file and an
append list of its own renders to what the document at `ab` renders to, and so
does a config with the same replace reference and nothing else. -/
theorem replace_discards_witness :
    (renderConfig demoEnv 3 0 () (mkConfig (some (ref "ab")) [ref "b"] [f2])).map
        (fun o => (o.val, o.world)) =
      (renderConfig demoEnv 2 1 () cfgAB).map (fun o => (o.val, o.world)) ∧
    renderConfig demoEnv 3 0 () (mkConfig (some (ref "ab")) [] []) =
      renderConfig demoEnv 3 0 () (mkConfig (some (ref "ab")) [ref "b"] [f2]) ∧
    (renderConfig demoEnv 3 0 () (mkConfig (some (ref "ab")) [ref "b"] [f2])).map
        (fun o => o.val.1.Storage.Files) = some [f1, f2] :=
  have h := replace_discards demoEnv 0 () () (mkConfig (some (ref "ab")) [ref "b"] [f2]) cfgAB
    (ref "ab") rfl rfl rfl
  ⟨h.1 2, h.2.2 (mkConfig (some (ref "ab")) [] []) 3 0 rfl, by decide⟩

/-- Appending `a` (files `[f1]`) and `b` (files `[f2]`) to a config without files
gives the files `[f1, f2]`. -/
theorem append_order_witness :
    ∃ o, renderConfig demoEnv 2 0 () cfgAB = some o ∧
      o.val = (specAppend (specAppend cfgAB cfgA) cfgB, none) ∧
      o.val.1.Storage.Files = [f1, f2] :=
  (append_order demoEnv 1 0 () () cfgAB [cfgA, cfgB] rfl (appendSteps_ab _)).imp
    (fun _ h => ⟨h.1, h.2.1,
      h.2.2.2.1 File (fun c => c.Storage.Files) (fun _ _ => rfl)⟩)

/-! ## `acquireConfig` -/

theorem fetchProviderConfig_head {W : Type} (env : Env W) (fuel : Nat) (w : W)
    (o : Out W (Config × Option Err)) (h : fetchProviderConfig env fuel w = some o) :
    ∃ tail, o.events = Event.fetchConfig Provider.cmdline :: tail := by
  have hloop : ∃ tail, (fetchLoop env [Provider.cmdline, Provider.system, Provider.oem] w
      (Config.zero, ⟨[]⟩, none)).events = Event.fetchConfig Provider.cmdline :: tail := by
    rw [fetchLoop]
    split
    split
    · exact ⟨_, rfl⟩
    · exact ⟨_, rfl⟩
  obtain ⟨tail, htail⟩ := hloop
  unfold fetchProviderConfig at h
  simp only at h
  split at h
  · simp only [Option.some.injEq] at h
    subst h
    simp only [htail, List.cons_append, List.append_assoc]
    exact ⟨_, rfl⟩
  · split at h
    · simp only [Option.some.injEq] at h
      subst h
      simp only [htail, List.cons_append, List.append_assoc]
      exact ⟨_, rfl⟩
    · split at h
      · exact absurd h (by simp)
      · simp only [Option.some.injEq] at h
        subst h
        simp only [htail, List.cons_append, List.append_assoc]
        exact ⟨_, rfl⟩

theorem renderAppend_withReadFile {W : Type} (env : Env W)
    (rf : W → String → (Bytes × Option Err) × W) (depth : Nat)
    (rec : W → Config → Option (Out W (Config × Option Err)))
    (refs : List ConfigReference) :
    ∀ w acc, renderAppend (withReadFile env rf) depth rec w acc refs =
      renderAppend env depth rec w acc refs := by
  induction refs with
  | nil => intro w acc; rfl
  | cons cfgRef rest ih =>
    intro w acc
    rw [renderAppend, renderAppend]
    have hf : fetchReferencedConfig (withReadFile env rf) w cfgRef =
        fetchReferencedConfig env w cfgRef := rfl
    simp only [hf, ih]
    rfl

theorem renderConfig_withReadFile {W : Type} (env : Env W)
    (rf : W → String → (Bytes × Option Err) × W) (fuel : Nat) :
    ∀ depth w cfg, renderConfig (withReadFile env rf) fuel depth w cfg =
      renderConfig env fuel depth w cfg := by
  induction fuel with
  | zero => intro depth w cfg; rfl
  | succ fuel ih =>
    intro depth w cfg
    rw [renderConfig, renderConfig]
    have hf : ∀ r, fetchReferencedConfig (withReadFile env rf) w r =
        fetchReferencedConfig env w r := fun _ => rfl
    have hrec : renderConfig (withReadFile env rf) fuel (depth + 1) =
        renderConfig env fuel (depth + 1) := by
      funext w' c'
      exact ih (depth + 1) w' c'
    simp only [hf, hrec, renderAppend_withReadFile]
    rfl

theorem fetchLoop_withReadFile {W : Type} (env : Env W)
    (rf : W → String → (Bytes × Option Err) × W) (ps : List Provider) :
    ∀ w cur, fetchLoop (withReadFile env rf) ps w cur = fetchLoop env ps w cur := by
  induction ps with
  | nil => intro w cur; rfl
  | cons p rest ih =>
    intro w cur
    rw [fetchLoop, fetchLoop]
    simp only [ih]
    rfl

theorem fetchProviderConfig_withReadFile {W : Type} (env : Env W)
    (rf : W → String → (Bytes × Option Err) × W) (fuel : Nat) (w : W) :
    fetchProviderConfig (withReadFile env rf) fuel w = fetchProviderConfig env fuel w := by
  unfold fetchProviderConfig
  simp only [fetchLoop_withReadFile, renderConfig_withReadFile]
  rfl

theorem acquireConfig_miss_events {W : Type} (env : Env W) (e : Engine) (fuel : Nat)
    (w w1 w2 : W) (b : Bytes) (err : Err)
    (hread : env.ReadFile w e.ConfigCache = ((b, some err), w1))
    (hupd : env.UpdateHttpTimeoutsAndCAs w1 (flagTimeouts env e) [] = (none, w2))
    (o : Out W (Config × Option Err)) (ho : acquireConfig env e fuel w = some o) :
    ∃ o' tail, fetchProviderConfig env fuel w2 = some o' ∧
      o.events = Event.readFile e.ConfigCache ::
        Event.updateHttpTimeoutsAndCAs (flagTimeouts env e) [] :: (o'.events ++ tail) := by
  unfold flagTimeouts at hupd
  simp only [acquireConfig, hread, hupd] at ho
  cases hfp : fetchProviderConfig env fuel w2 with
  | none => simp [hfp] at ho
  | some o' =>
    refine ⟨o', ?_⟩
    simp only [hfp] at ho
    repeat' split at ho
    all_goals
      simp only [Option.some.injEq] at ho
      subst ho
      simp only [flagTimeouts, List.cons_append, List.nil_append, List.cons.injEq, true_and,
        List.append_cancel_left_eq, exists_eq_left', exists_eq', and_self]
      try exact ⟨_, rfl, List.append_nil _ |>.symm⟩

/-! ## Which calls each function makes -/

theorem logReport_events (P : Event → Prop) (hlog : ∀ sev format args, P (Event.log sev format args))
    (r : Report) : ∀ ev ∈ logReport r, P ev := by
  intro ev hev
  rw [logReport, logEntries_eq_spec, List.mem_filterMap] at hev
  obtain ⟨entry, _, hentry⟩ := hev
  obtain ⟨kind, msg, line, col, hl⟩ := entry
  cases kind <;> simp [specLogRecord] at hentry <;> subst hentry <;> exact hlog _ _ _

theorem fetchReferencedConfig_events {W : Type} (env : Env W) (P : Event → Prop)
    (hlog : ∀ sev format args, P (Event.log sev format args))
    (hfetch : ∀ u headers, P (Event.fetchToBuffer u headers))
    (hparse : ∀ raw, P (Event.parse raw))
    (w : W) (cfgRef : ConfigReference) :
    ∀ ev ∈ (fetchReferencedConfig env w cfgRef).events, P ev := by
  intro ev hev
  unfold fetchReferencedConfig at hev
  repeat' split at hev
  all_goals
    simp only [List.mem_cons, List.mem_append, List.not_mem_nil, or_false, List.cons_append,
      List.nil_append] at hev
  all_goals
    first
    | (obtain rfl := hev; exact hfetch _ _)
    | (rcases hev with rfl | rfl
       · exact hfetch _ _
       · exact hlog _ _ _)
    | (rcases hev with rfl | rfl | rfl | h
       · exact hfetch _ _
       · exact hlog _ _ _
       · exact hparse _
       · exact logReport_events P hlog _ _ h)

theorem renderAppend_events {W : Type} (env : Env W) (P : Event → Prop)
    (hlog : ∀ sev format args, P (Event.log sev format args))
    (hfetch : ∀ u headers, P (Event.fetchToBuffer u headers))
    (hparse : ∀ raw, P (Event.parse raw))
    (hupd : ∀ t cas, P (Event.updateHttpTimeoutsAndCAs t cas))
    (depth : Nat) (hres : ∀ cfgRef, P (Event.resolve depth cfgRef))
    (rec : W → Config → Option (Out W (Config × Option Err)))
    (hrec : ∀ w c o, rec w c = some o → ∀ ev ∈ o.events, P ev)
    (refs : List ConfigReference) :
    ∀ w acc o, renderAppend env depth rec w acc refs = some o → ∀ ev ∈ o.events, P ev := by
  induction refs with
  | nil =>
    intro w acc o h
    simp only [renderAppend, Option.some.injEq] at h
    subst h
    simp
  | cons cfgRef rest ih =>
    intro w acc o h
    have hF := fetchReferencedConfig_events env P hlog hfetch hparse w cfgRef
    rw [renderAppend] at h
    simp only at h
    split at h
    · simp only [Option.some.injEq] at h
      subst h
      simp only [List.forall_mem_cons]
      exact ⟨hres _, hF⟩
    · split at h
      · simp only [Option.some.injEq] at h
        subst h
        simp only [List.cons_append, List.forall_mem_cons, List.forall_mem_append,
          List.not_mem_nil, IsEmpty.forall_iff, implies_true, and_true]
        exact ⟨hres _, hF, hupd _ _⟩
      · split at h
        · exact absurd h (by simp)
        · rename_i o3 ho3
          split at h
          · simp only [Option.some.injEq] at h
            subst h
            simp only [List.cons_append, List.forall_mem_cons, List.forall_mem_append,
              List.not_mem_nil, IsEmpty.forall_iff, implies_true, and_true]
            exact ⟨hres _, ⟨hF, hupd _ _⟩, hrec _ _ _ ho3⟩
          · split at h
            · exact absurd h (by simp)
            · rename_i o4 ho4
              simp only [Option.some.injEq] at h
              subst h
              simp only [List.cons_append, List.forall_mem_cons, List.forall_mem_append,
                List.not_mem_nil, IsEmpty.forall_iff, implies_true, and_true]
              exact ⟨hres _, ⟨⟨hF, hupd _ _⟩, hrec _ _ _ ho3⟩, ih _ _ _ ho4⟩

theorem renderConfig_events {W : Type} (env : Env W) (P : Event → Prop) (lo hi : Nat)
    (hlog : ∀ sev format args, P (Event.log sev format args))
    (hfetch : ∀ u headers, P (Event.fetchToBuffer u headers))
    (hparse : ∀ raw, P (Event.parse raw))
    (hupd : ∀ t cas, P (Event.updateHttpTimeoutsAndCAs t cas))
    (hren : ∀ d', lo ≤ d' → d' < hi → P (Event.render d'))
    (hres : ∀ d' cfgRef, lo ≤ d' → d' < hi → P (Event.resolve d' cfgRef))
    (fuel : Nat) :
    ∀ depth w cfg o, lo ≤ depth → depth + fuel ≤ hi →
      renderConfig env fuel depth w cfg = some o → ∀ ev ∈ o.events, P ev := by
  induction fuel with
  | zero =>
    intro depth w cfg o _ _ h
    simp [renderConfig] at h
  | succ fuel ih =>
    intro depth w cfg o hd hhi h
    have hlt : depth < hi := by omega
    have hhi' : depth + 1 + fuel ≤ hi := by omega
    have hF := fun cfgRef => fetchReferencedConfig_events env P hlog hfetch hparse w cfgRef
    rw [renderConfig] at h
    split at h
    · simp only at h
      split at h
      · simp only [Option.some.injEq] at h
        subst h
        simp only [List.forall_mem_cons]
        exact ⟨hren _ hd hlt, hres _ _ hd hlt, hF _⟩
      · split at h
        · simp only [Option.some.injEq] at h
          subst h
          simp only [List.cons_append, List.forall_mem_cons, List.forall_mem_append,
            List.not_mem_nil, IsEmpty.forall_iff, implies_true, and_true]
          exact ⟨hren _ hd hlt, hres _ _ hd hlt, hF _, hupd _ _⟩
        · split at h
          · exact absurd h (by simp)
          · rename_i o3 ho3
            simp only [Option.some.injEq] at h
            subst h
            simp only [List.cons_append, List.forall_mem_cons, List.forall_mem_append,
              List.not_mem_nil, IsEmpty.forall_iff, implies_true, and_true]
            exact ⟨hren _ hd hlt, hres _ _ hd hlt, ⟨hF _, hupd _ _⟩,
              ih _ _ _ _ (Nat.le_succ_of_le hd) hhi' ho3⟩
    · split at h
      · exact absurd h (by simp)
      · rename_i o1 ho1
        simp only [Option.some.injEq] at h
        subst h
        simp only [List.forall_mem_cons]
        exact ⟨hren _ hd hlt,
          renderAppend_events env P hlog hfetch hparse hupd depth (fun r => hres _ r hd hlt) _
            (fun w' c' o' ho' => ih _ _ _ _ (Nat.le_succ_of_le hd) hhi' ho') _ _ _ _ ho1⟩

theorem fetchLoop_events {W : Type} (env : Env W) (P : Event → Prop)
    (hfc : ∀ p, P (Event.fetchConfig p)) (ps : List Provider) :
    ∀ w cur, ∀ ev ∈ (fetchLoop env ps w cur).events, P ev := by
  induction ps with
  | nil => intro w cur; simp [fetchLoop]
  | cons p rest ih =>
    intro w cur
    rw [fetchLoop]
    split
    split
    · simp only [List.forall_mem_cons, List.not_mem_nil, IsEmpty.forall_iff, implies_true,
        and_true]
      exact hfc _
    · simp only [List.forall_mem_cons]
      exact ⟨hfc _, ih _ _⟩

theorem fetchProviderConfig_events {W : Type} (env : Env W) (P : Event → Prop)
    (hlog : ∀ sev format args, P (Event.log sev format args))
    (hfetch : ∀ u headers, P (Event.fetchToBuffer u headers))
    (hparse : ∀ raw, P (Event.parse raw))
    (hupd : ∀ t cas, P (Event.updateHttpTimeoutsAndCAs t cas))
    (hren : ∀ d', P (Event.render d'))
    (hres : ∀ d' cfgRef, P (Event.resolve d' cfgRef))
    (hfc : ∀ p, P (Event.fetchConfig p))
    (fuel : Nat) (w : W) (o : Out W (Config × Option Err))
    (h : fetchProviderConfig env fuel w = some o) : ∀ ev ∈ o.events, P ev := by
  have hL := fetchLoop_events env P hfc [Provider.cmdline, Provider.system, Provider.oem] w
    (Config.zero, ⟨[]⟩, none)
  unfold fetchProviderConfig at h
  simp only at h
  split at h
  · simp only [Option.some.injEq] at h
    subst h
    simp only [List.forall_mem_append]
    exact ⟨hL, logReport_events P hlog _⟩
  · split at h
    · simp only [Option.some.injEq] at h
      subst h
      simp only [List.forall_mem_append, List.forall_mem_cons, List.not_mem_nil,
        IsEmpty.forall_iff, implies_true, and_true]
      exact ⟨⟨hL, logReport_events P hlog _⟩, hupd _ _⟩
    · split at h
      · exact absurd h (by simp)
      · rename_i o3 ho3
        simp only [Option.some.injEq] at h
        subst h
        simp only [List.forall_mem_append, List.forall_mem_cons, List.not_mem_nil,
          IsEmpty.forall_iff, implies_true, and_true]
        exact ⟨⟨⟨hL, logReport_events P hlog _⟩, hupd _ _⟩,
          renderConfig_events env P 0 (0 + fuel) hlog hfetch hparse hupd
            (fun d' _ _ => hren d') (fun d' r _ _ => hres d' r) fuel 0 _ _ _ (Nat.le_refl 0)
            (Nat.le_refl _) ho3⟩

theorem acquireConfig_events {W : Type} (env : Env W) (P : Event → Prop)
    (hlog : ∀ sev format args, P (Event.log sev format args))
    (hfetch : ∀ u headers, P (Event.fetchToBuffer u headers))
    (hparse : ∀ raw, P (Event.parse raw))
    (hupd : ∀ t cas, P (Event.updateHttpTimeoutsAndCAs t cas))
    (hren : ∀ d', P (Event.render d'))
    (hres : ∀ d' cfgRef, P (Event.resolve d' cfgRef))
    (hfc : ∀ p, P (Event.fetchConfig p))
    (hread : ∀ path, P (Event.readFile path))
    (hrew : ∀ cas, P (Event.rewriteCAsWithDataUrls cas))
    (hwrite : ∀ path data perm, P (Event.writeFile path data perm))
    (e : Engine) (fuel : Nat) (w : W) (o : Out W (Config × Option Err))
    (h : acquireConfig env e fuel w = some o) : ∀ ev ∈ o.events, P ev := by
  unfold acquireConfig at h
  simp only at h
  have hplog : ∀ (x : Option Err), ∀ ev ∈ (match x with
      | some err =>
        [Event.log Severity.Crit "failed to parse cached config: %v" [LogArg.err err]]
      | none => []), P ev := by
    intro x
    cases x <;> simp [hlog]
  split at h
  · split at h
    all_goals
      simp only [Option.some.injEq] at h
      subst h
      simp only [List.forall_mem_append, List.forall_mem_cons, List.not_mem_nil,
        IsEmpty.forall_iff, implies_true, and_true, List.cons_append, List.nil_append]
    · exact ⟨hread _, hplog _, hupd _ _, hlog _ _ _⟩
    · exact ⟨hread _, hplog _, hupd _ _⟩
  · split at h
    · simp only [Option.some.injEq] at h
      subst h
      simp only [List.forall_mem_cons, List.not_mem_nil, IsEmpty.forall_iff, implies_true,
        and_true]
      exact ⟨hread _, hupd _ _, hlog _ _ _⟩
    · split at h
      · exact absurd h (by simp)
      · rename_i o' ho'
        have hfp := fetchProviderConfig_events env P hlog hfetch hparse hupd hren hres hfc
          fuel _ o' ho'
        repeat' split at h
        all_goals
          simp only [Option.some.injEq] at h
          subst h
          simp only [List.forall_mem_append, List.forall_mem_cons, List.not_mem_nil,
            IsEmpty.forall_iff, implies_true, and_true, List.cons_append, List.nil_append]
        · exact ⟨hread _, hupd _ _, hfp, hlog _ _ _⟩
        · exact ⟨hread _, hupd _ _, hfp, hupd _ _, hlog _ _ _⟩
        · exact ⟨hread _, hupd _ _, hfp, hupd _ _, hrew _, hlog _ _ _⟩
        · exact ⟨hread _, hupd _ _, hfp, hupd _ _, hrew _, hlog _ _ _⟩
        · exact ⟨hread _, hupd _ _, hfp, hupd _ _, hrew _, hwrite _ _ _, hlog _ _ _⟩
        · exact ⟨hread _, hupd _ _, hfp, hupd _ _, hrew _, hwrite _ _ _⟩

/-! ## The cache file -/

/-- C9 (as amended). Whenever `acquireConfig` writes a file, it is the cache file and
the permission mode it passes is `0640`: read and write for the owning user, read
for the group, nothing for others (`mode AND 0o027 = 0`, `mode AND 0o077 = 0o040`);
and the write happens only after reading the cache failed, the fetcher update
from the flag timeout succeeded, `fetchProviderConfig` returned a rendered config
without error and the fetcher update from that config succeeded. -/
theorem cache_write_mode {W : Type} (env : Env W) (e : Engine) (fuel : Nat) (w : W)
    (o : Out W (Config × Option Err)) (path : String) (data : Bytes) (perm : Nat)
    (ho : acquireConfig env e fuel w = some o)
    (hw : Event.writeFile path data perm ∈ o.events) :
    path = e.ConfigCache ∧ perm = 0o640 ∧ perm &&& 0o027 = 0 ∧ perm &&& 0o077 = 0o040 ∧
    ∃ b err w1 w2 o' w3,
      env.ReadFile w e.ConfigCache = ((b, some err), w1) ∧
      env.UpdateHttpTimeoutsAndCAs w1 (flagTimeouts env e) [] = (none, w2) ∧
      fetchProviderConfig env fuel w2 = some o' ∧
      o'.val.2 = none ∧
      env.UpdateHttpTimeoutsAndCAs o'.world o'.val.1.Ignition.Timeouts
        o'.val.1.Ignition.Security.TLS.CertificateAuthorities = (none, w3) := by
  unfold acquireConfig at ho
  simp only at ho
  split at ho
  · have hplog : ∀ (x : Option Err), Event.writeFile path data perm ∉ (match x with
        | some err =>
          [Event.log Severity.Crit "failed to parse cached config: %v" [LogArg.err err]]
        | none => []) := by
      intro x
      cases x <;> simp
    split at ho
    all_goals
      simp only [Option.some.injEq] at ho
      subst ho
      simp only [List.mem_append, List.mem_cons, List.not_mem_nil, or_false] at hw
      rcases hw with (h | h) | h
      · exact Event.noConfusion h
      · exact absurd h (hplog _)
      · rcases h with h | h <;> exact Event.noConfusion h
  · rename_i b err w1 hread
    split at ho
    · simp only [Option.some.injEq] at ho
      subst ho
      simp at hw
    · rename_i w2 hupd0
      split at ho
      · exact absurd ho (by simp)
      · rename_i o' ho'
        have hfp := fetchProviderConfig_events env (fun ev => ev.isWriteFile = false)
          (fun _ _ _ => rfl) (fun _ _ => rfl) (fun _ => rfl) (fun _ _ => rfl) (fun _ => rfl)
          (fun _ _ => rfl) (fun _ => rfl) fuel _ o' ho'
        have hno : Event.writeFile path data perm ∉ o'.events := fun hmem =>
          Bool.noConfusion (hfp _ hmem)
        split at ho
        · simp only [Option.some.injEq] at ho
          subst ho
          simp [hno] at hw
        · rename_i cfg hval
          split at ho
          · simp only [Option.some.injEq] at ho
            subst ho
            simp [hno] at hw
          · rename_i w3 hupd
            have hex : ∃ b err w1 w2 o' w3,
                env.ReadFile w e.ConfigCache = ((b, some err), w1) ∧
                env.UpdateHttpTimeoutsAndCAs w1 (flagTimeouts env e) [] = (none, w2) ∧
                fetchProviderConfig env fuel w2 = some o' ∧
                o'.val.2 = none ∧
                env.UpdateHttpTimeoutsAndCAs o'.world o'.val.1.Ignition.Timeouts
                  o'.val.1.Ignition.Security.TLS.CertificateAuthorities = (none, w3) :=
              ⟨b, err, w1, w2, o', w3, hread, hupd0, ho', by rw [hval], by rw [hval]; exact hupd⟩
            repeat' split at ho
            all_goals
              simp only [Option.some.injEq] at ho
              subst ho
              simp [hno] at hw
            all_goals
              obtain ⟨rfl, _, rfl⟩ := hw
              exact ⟨rfl, rfl, by decide, by decide, hex⟩

theorem demo_acquire_isSome :
    (acquireConfig demoEnv (demoEngine "none") 3 ()).isSome = true := by decide

/-- The claim C9 as stated fails: with no cache file and a user config from the
system provider, `acquireConfig` writes the cache file with a mode that has a group
bit set (`0640 AND 0o077 = 0o040`). -/
theorem cache_write_mode_counterexample :
    ∃ o, acquireConfig demoEnv (demoEngine "none") 3 () = some o ∧
      ∃ path data perm, Event.writeFile path data perm ∈ o.events ∧
        perm = 0o640 ∧ perm &&& 0o077 = 0o040 ∧ perm &&& 0o077 ≠ 0 :=
  ⟨Option.get _ demo_acquire_isSome, (Option.some_get demo_acquire_isSome).symm,
    "none", [7], 0o640, by decide, rfl, by decide, by decide⟩

/-- The write of the cache file in the example run: path, mode and the steps that
precede it. -/
theorem cache_write_mode_witness :
    ∃ o, acquireConfig demoEnv (demoEngine "none") 3 () = some o ∧
      Event.writeFile "none" [7] 0o640 ∈ o.events ∧
      "none" = (demoEngine "none").ConfigCache ∧ (0o640 : Nat) = 0o640 ∧
      (0o640 : Nat) &&& 0o027 = 0 ∧ (0o640 : Nat) &&& 0o077 = 0o040 :=
  have hm : Event.writeFile "none" [7] 0o640 ∈
      (Option.get (acquireConfig demoEnv (demoEngine "none") 3 ()) demo_acquire_isSome).events := by
    decide
  have h := cache_write_mode demoEnv (demoEngine "none") 3 () (Option.get _ demo_acquire_isSome)
    "none" [7] 0o640 (Option.some_get demo_acquire_isSome).symm hm
  ⟨Option.get _ demo_acquire_isSome, (Option.some_get demo_acquire_isSome).symm, hm, h.1, h.2.1,
    h.2.2.1, h.2.2.2.1⟩

/-- C4 (what the code does). A cache file that reads successfully but does not parse:
`acquireConfig` logs the parse failure and then returns the zero config with a nil
error, because the fetcher update that follows succeeds and its result is assigned
to the same `err`; `Run` goes on to invoke the stage and returns nil. -/
theorem corrupt_cache_not_fatal :
    demoEnv.ReadFile () "corrupt" = (([0], none), ()) ∧
    demoEnv.Unmarshal [0] = (Config.zero, some (Err.other "invalid config")) ∧
    (acquireConfig demoEnv (demoEngine "corrupt") 0 ()).map (fun o => (o.val, o.events)) =
      some ((Config.zero, none),
        [Event.readFile "corrupt",
          Event.log Severity.Crit "failed to parse cached config: %v"
            [LogArg.err (Err.other "invalid config")],
          Event.updateHttpTimeoutsAndCAs ⟨none, none⟩ []]) ∧
    (Run demoEnv (demoEngine "corrupt") 0 "files" ()).map
        (fun o => (o.val, (o.events.filter Event.isStageRun).length)) = some (none, 1) := by
  decide

/-! ## The cache short-circuit -/

/-- C5 (as amended). Cache short-circuit: when the cache file is readable and parses
to `C` and the fetcher update succeeds, `acquireConfig` returns `(C, nil)` having
made exactly two calls, the read and one fetcher update with `C`'s timeouts and
certificate authorities (so no provider call, no rendering, no reference fetch, no
write of the cache file).  Conversely, when reading the cache file fails, the
outcome does not depend on the read error, and control falls through to the reset
of the fetcher from the flag timeout: if that update succeeds the provider chain
is run, starting with the command-line provider, and `acquireConfig` returns
exactly when `fetchProviderConfig` does; if it fails, its error is returned with the
zero config and no provider is called. -/
theorem cache_short_circuit {W : Type} (env : Env W) (e : Engine) (fuel : Nat) (w w1 : W) :
    (∀ b C w2, env.ReadFile w e.ConfigCache = ((b, none), w1) →
      env.Unmarshal b = (C, none) →
      env.UpdateHttpTimeoutsAndCAs w1 C.Ignition.Timeouts
        C.Ignition.Security.TLS.CertificateAuthorities = (none, w2) →
      ∃ o, acquireConfig env e fuel w = some o ∧ o.val = (C, none) ∧ o.world = w2 ∧
        o.events = [Event.readFile e.ConfigCache,
          Event.updateHttpTimeoutsAndCAs C.Ignition.Timeouts
            C.Ignition.Security.TLS.CertificateAuthorities] ∧
        o.events.filter Event.isFetchConfig = [] ∧
        o.events.filter Event.isRendering = [] ∧
        o.events.filter Event.isWriteFile = [] ∧
        o.events.filter Event.isUpdate =
          [Event.updateHttpTimeoutsAndCAs C.Ignition.Timeouts
            C.Ignition.Security.TLS.CertificateAuthorities]) ∧
    (∀ b err, env.ReadFile w e.ConfigCache = ((b, some err), w1) →
      (∀ b' err', acquireConfig (withReadFile env (fun _ _ => ((b', some err'), w1))) e fuel w =
        acquireConfig env e fuel w) ∧
      (∀ w2, env.UpdateHttpTimeoutsAndCAs w1 (flagTimeouts env e) [] = (none, w2) →
        (acquireConfig env e fuel w).isSome = (fetchProviderConfig env fuel w2).isSome ∧
        ∀ o, acquireConfig env e fuel w = some o →
          ∃ tail, o.events = Event.readFile e.ConfigCache ::
            Event.updateHttpTimeoutsAndCAs (flagTimeouts env e) [] ::
            Event.fetchConfig Provider.cmdline :: tail) ∧
      (∀ w2 uerr, env.UpdateHttpTimeoutsAndCAs w1 (flagTimeouts env e) [] = (some uerr, w2) →
        ∃ o, acquireConfig env e fuel w = some o ∧ o.val = (Config.zero, some uerr) ∧
          o.world = w2 ∧
          o.events = [Event.readFile e.ConfigCache,
            Event.updateHttpTimeoutsAndCAs (flagTimeouts env e) [],
            Event.log Severity.Crit "failed to update timeouts and CAs for fetcher: %v"
              [LogArg.err uerr]] ∧
          o.events.filter Event.isFetchConfig = [])) := by
  refine ⟨?_, ?_⟩
  · intro b C w2 hread hparse hupd
    simp only [acquireConfig, hread, hparse, hupd]
    exact ⟨_, rfl, rfl, rfl, rfl, rfl, rfl, rfl, rfl⟩
  · intro b err hread
    refine ⟨?_, ?_, ?_⟩
    · intro b' err'
      have hread' : (withReadFile env (fun _ _ => ((b', some err'), w1))).ReadFile w
          e.ConfigCache = ((b', some err'), w1) := rfl
      have hfp := fetchProviderConfig_withReadFile env (fun _ _ => ((b', some err'), w1)) fuel
      unfold acquireConfig
      simp only [hread, hread', hfp]
      rfl
    · intro w2 hupd
      refine ⟨?_, ?_⟩
      · have hupd' := hupd
        unfold flagTimeouts at hupd'
        simp only [acquireConfig, hread, hupd']
        cases hfp : fetchProviderConfig env fuel w2 with
        | none => rfl
        | some o' =>
          simp only [Option.isSome_some]
          repeat' split
          all_goals rfl
      · intro o ho
        obtain ⟨o', tail, hfp, hev⟩ := acquireConfig_miss_events env e fuel w w1 w2 b err hread hupd o ho
        obtain ⟨t, ht⟩ := fetchProviderConfig_head env fuel w2 o' hfp
        exact ⟨t ++ tail, by rw [hev, ht, List.cons_append]⟩
    · intro w2 uerr hupd
      have hupd' := hupd
      unfold flagTimeouts at hupd'
      simp only [acquireConfig, hread, hupd']
      exact ⟨_, rfl, rfl, rfl, rfl, rfl⟩

/-- The claim C5 as stated fails in its second half: with no cache file and a fetcher
that rejects the update from the flag timeout, `acquireConfig` does not fall
through to the provider chain; it returns the update error with the zero config,
and no provider has been called. -/
theorem cache_short_circuit_counterexample :
    demoEnvNoUpdate.ReadFile () (demoEngine "none").ConfigCache =
      (([], some (Err.other "no such file")), ()) ∧
    ∃ o, acquireConfig demoEnvNoUpdate (demoEngine "none") 3 () = some o ∧
      o.val = (Config.zero, some (Err.other "bad CA")) ∧
      o.events = [Event.readFile "none", Event.updateHttpTimeoutsAndCAs ⟨none, some 120⟩ [],
        Event.log Severity.Crit "failed to update timeouts and CAs for fetcher: %v"
          [LogArg.err (Err.other "bad CA")]] ∧
      o.events.filter Event.isFetchConfig = [] :=
  ⟨rfl, _, rfl, rfl, rfl, rfl⟩

/-- With a cached config at `hit`, `acquireConfig` returns it after one read and one
fetcher update; with no cache file, it resets the fetcher from the flag timeout
(120 s) and calls the command-line provider next; with no cache file and a fetcher
that rejects the reset, it returns that error. -/
theorem cache_short_circuit_witness :
    (∃ o, acquireConfig demoEnv (demoEngine "hit") 3 () = some o ∧ o.val = (cfgA, none) ∧
      o.events = [Event.readFile "hit", Event.updateHttpTimeoutsAndCAs ⟨none, none⟩ []] ∧
      o.events.filter Event.isFetchConfig = []) ∧
    (acquireConfig (withReadFile demoEnv (fun _ _ => (([], some Err.ErrEmpty), ())))
        (demoEngine "none") 3 () = acquireConfig demoEnv (demoEngine "none") 3 ()) ∧
    (∃ o tail, acquireConfig demoEnv (demoEngine "none") 3 () = some o ∧
      o.events = Event.readFile "none" :: Event.updateHttpTimeoutsAndCAs ⟨none, some 120⟩ [] ::
        Event.fetchConfig Provider.cmdline :: tail) ∧
    (∃ o, acquireConfig demoEnvNoUpdate (demoEngine "none") 3 () = some o ∧
      o.val = (Config.zero, some (Err.other "bad CA"))) :=
  have hs := demo_acquire_isSome
  ⟨((cache_short_circuit demoEnv (demoEngine "hit") 3 () ()).1 [1] cfgA () rfl rfl rfl).imp
      (fun _ h => ⟨h.1, h.2.1, h.2.2.2.1, h.2.2.2.2.1⟩),
    ((cache_short_circuit demoEnv (demoEngine "none") 3 () ()).2 []
      (Err.other "no such file") rfl).1 [] Err.ErrEmpty,
    ⟨Option.get _ hs,
      (((cache_short_circuit demoEnv (demoEngine "none") 3 () ()).2 []
        (Err.other "no such file") rfl).2.1 () rfl).2 (Option.get _ hs) (Option.some_get hs).symm
        |>.choose,
      (Option.some_get hs).symm,
      (((cache_short_circuit demoEnv (demoEngine "none") 3 () ()).2 []
        (Err.other "no such file") rfl).2.1 () rfl).2 (Option.get _ hs) (Option.some_get hs).symm
        |>.choose_spec⟩,
    (((cache_short_circuit demoEnvNoUpdate (demoEngine "none") 3 () ()).2 []
      (Err.other "no such file") rfl).2.2 () (Err.other "bad CA") rfl).imp
      (fun _ h => ⟨h.1, h.2.1⟩)⟩

/-! ## `Run` -/

theorem runStage_val {W : Type} (env : Env W) (e : Engine) (stageName : String)
    (base sys cfg : Config) (w : W) :
    (runStage env e stageName base sys cfg w).val =
      (env.StageRun w stageName e.Root (env.Append base (env.Append sys cfg))).1 := by
  unfold runStage
  simp only
  split <;> rename_i h <;> rw [h]

theorem runStage_stage {W : Type} (env : Env W) (e : Engine) (stageName : String)
    (base sys cfg : Config) (w : W) :
    (runStage env e stageName base sys cfg w).events.filter Event.isStageRun =
      [Event.stageRun stageName e.Root (env.Append base (env.Append sys cfg))] := by
  unfold runStage
  simp only
  split
  · split <;> rfl
  · rfl

theorem filter_stage_nil (evs : List Event) (h : ∀ ev ∈ evs, ev.isStageRun = false) :
    evs.filter Event.isStageRun = [] := by
  rw [List.filter_eq_nil_iff]
  intro ev hev
  rw [h ev hev]
  exact Bool.false_ne_true

theorem acquireConfig_no_stage {W : Type} (env : Env W) (e : Engine) (fuel : Nat) (w : W)
    (o : Out W (Config × Option Err)) (h : acquireConfig env e fuel w = some o) :
    o.events.filter Event.isStageRun = [] :=
  filter_stage_nil _ (acquireConfig_events env (fun ev => ev.isStageRun = false)
    (fun _ _ _ => rfl) (fun _ _ => rfl) (fun _ => rfl) (fun _ _ => rfl) (fun _ => rfl)
    (fun _ _ => rfl) (fun _ => rfl) (fun _ => rfl) (fun _ => rfl) (fun _ _ _ => rfl)
    e fuel w o h)

theorem logReport_no_stage (r : Report) : (logReport r).filter Event.isStageRun = [] :=
  filter_stage_nil _ (logReport_events (fun ev => ev.isStageRun = false) (fun _ _ _ => rfl) r)

/-- C6. Benign-unusable fallback in `Run` (engine configured, system base config
acquired): when `acquireConfig` fails with `ErrEmpty`, `ErrCloudConfig` or
`ErrScript`, `Run` logs the error at Info level and calls
`system.FetchDefaultConfig`; if that returns no error or `ErrNoProvider`, the stage
is invoked once, on the merge of base, system base and the default config, and
what `Run` returns is the stage's result; otherwise `Run` returns the default
provider's error without invoking the stage.  For every other acquire error `Run`
returns that error and the stage is not invoked. -/
theorem benign_fallback {W : Type} (env : Env W) (e : Engine) (fuel : Nat)
    (stageName : String) (w w1 : W) (systemBaseConfig cfg0 : Config) (r0 : Report)
    (err0 : Option Err) (o : Out W (Config × Option Err)) (err : Err)
    (hF : e.Fetcher = true) (hL : e.Logger = true)
    (hbase : env.FetchBaseConfig w = ((systemBaseConfig, r0, err0), w1))
    (hbaseok : err0 = none ∨ err0 = some Err.ErrNoProvider)
    (hacq : acquireConfig env e fuel w1 = some o)
    (herr : o.val = (cfg0, some err)) :
    ((err = Err.ErrEmpty ∨ err = Err.ErrCloudConfig ∨ err = Err.ErrScript) →
      ∀ cfg r2 err2 w2, env.FetchDefaultConfig o.world = ((cfg, r2, err2), w2) →
        ∃ out, Run env e fuel stageName w = some out ∧
          Event.log Severity.Info "%v: ignoring user-provided config" [LogArg.err err] ∈
            out.events ∧
          Event.fetchDefaultConfig ∈ out.events ∧
          ((err2 = none ∨ err2 = some Err.ErrNoProvider) →
            out.val = (env.StageRun w2 stageName e.Root
              (env.Append (baseConfig env e) (env.Append systemBaseConfig cfg))).1 ∧
            out.events.filter Event.isStageRun =
              [Event.stageRun stageName e.Root
                (env.Append (baseConfig env e) (env.Append systemBaseConfig cfg))]) ∧
          (¬(err2 = none ∨ err2 = some Err.ErrNoProvider) →
            out.val = err2 ∧ out.events.filter Event.isStageRun = [])) ∧
    (¬(err = Err.ErrEmpty ∨ err = Err.ErrCloudConfig ∨ err = Err.ErrScript) →
      ∃ out, Run env e fuel stageName w = some out ∧ out.val = some err ∧
        out.events.filter Event.isStageRun = []) := by
  have hcfg : ¬(e.Fetcher = false ∨ e.Logger = false) := by simp [hF, hL]
  have hb : ¬(err0 ≠ none ∧ err0 ≠ some Err.ErrNoProvider) := by
    rcases hbaseok with h | h <;> simp [h]
  have hns := acquireConfig_no_stage env e fuel w1 o hacq
  refine ⟨?_, ?_⟩
  · intro hben cfg r2 err2 w2 hdef
    have hben' : err = Err.ErrCloudConfig ∨ err = Err.ErrScript ∨ err = Err.ErrEmpty := by
      rcases hben with h | h | h <;> simp [h]
    have hR : ∀ x, Run env e fuel stageName w = x →
        x = if err2 ≠ none ∧ err2 ≠ some Err.ErrNoProvider then
          some ⟨err2, w2,
            Event.fetchBaseConfig :: logReport r0 ++ o.events ++
              [Event.log Severity.Info "%v: ignoring user-provided config" [LogArg.err err],
                Event.fetchDefaultConfig] ++ logReport r2 ++
              [Event.log Severity.Crit "failed to acquire default config: %v"
                (err2.toList.map LogArg.err)]⟩
        else
          some ⟨(runStage env e stageName (baseConfig env e) systemBaseConfig cfg w2).val,
            (runStage env e stageName (baseConfig env e) systemBaseConfig cfg w2).world,
            Event.fetchBaseConfig :: logReport r0 ++ o.events ++
              [Event.log Severity.Info "%v: ignoring user-provided config" [LogArg.err err],
                Event.fetchDefaultConfig] ++ logReport r2 ++
              (runStage env e stageName (baseConfig env e) systemBaseConfig cfg w2).events⟩ := by
      intro x hx
      simp only [Run, hcfg, if_false, hbase, hb, hacq, herr, hben', if_true, hdef] at hx
      exact hx.symm
    have hrun := hR _ rfl
    by_cases h2 : err2 ≠ none ∧ err2 ≠ some Err.ErrNoProvider
    · rw [if_pos h2] at hrun
      refine ⟨_, hrun, ?_, ?_, ?_, ?_⟩
      · simp
      · simp
      · intro h
        exact absurd h2 (by rcases h with h | h <;> simp [h])
      · intro _
        refine ⟨rfl, ?_⟩
        simp [List.filter_append, hns, logReport_no_stage, Event.isStageRun]
    · rw [if_neg h2] at hrun
      refine ⟨_, hrun, ?_, ?_, ?_, ?_⟩
      · simp
      · simp
      · intro _
        refine ⟨runStage_val _ _ _ _ _ _ _, ?_⟩
        simp [List.filter_append, hns, logReport_no_stage, Event.isStageRun, runStage_stage]
      · intro h
        exact absurd (fun hc : err2 = none ∨ err2 = some Err.ErrNoProvider => h hc)
          (by
            intro hh
            exact h2 ⟨fun h1 => hh (Or.inl h1), fun h1 => hh (Or.inr h1)⟩)
  · intro hnb
    have hnb' : ¬(err = Err.ErrCloudConfig ∨ err = Err.ErrScript ∨ err = Err.ErrEmpty) := by
      intro h
      exact hnb (by rcases h with h | h | h <;> simp [h])
    have hR : ∀ x, Run env e fuel stageName w = x →
        x = some ⟨some err, o.world,
          Event.fetchBaseConfig :: logReport r0 ++ o.events ++
            [Event.log Severity.Crit "failed to acquire config: %v" [LogArg.err err]]⟩ := by
      intro x hx
      simp only [Run, hcfg, if_false, hbase, hb, hacq, herr, hnb'] at hx
      exact hx.symm
    refine ⟨_, hR _ rfl, rfl, ?_⟩
    simp [List.filter_append, hns, logReport_no_stage, Event.isStageRun]

theorem demoEmpty_acquire_isSome :
    (acquireConfig demoEnvEmpty (demoEngine "none") 0 ()).isSome = true := by decide

theorem demoNoUpdate_acquire_isSome :
    (acquireConfig demoEnvNoUpdate (demoEngine "none") 0 ()).isSome = true := by decide

/-- An empty user config: `Run` logs it at Info level, takes the default config
(files `[f2]`), invokes the stage once on the merged config and returns nil.  A
fetcher that rejects the update: `Run` returns that error and invokes no stage. -/
theorem benign_fallback_witness :
    (∃ out, Run demoEnvEmpty (demoEngine "none") 0 "files" () = some out ∧
      out.val = none ∧
      Event.log Severity.Info "%v: ignoring user-provided config" [LogArg.err Err.ErrEmpty] ∈
        out.events ∧
      out.events.filter Event.isStageRun =
        [Event.stageRun "files" "/sysroot"
          (specAppend (baseConfig demoEnvEmpty (demoEngine "none"))
            (specAppend Config.zero cfgB))]) ∧
    (∃ out, Run demoEnvNoUpdate (demoEngine "none") 0 "files" () = some out ∧
      out.val = some (Err.other "bad CA") ∧ out.events.filter Event.isStageRun = []) :=
  have h1 := benign_fallback demoEnvEmpty (demoEngine "none") 0 "files" () () Config.zero
    Config.zero ⟨[]⟩ (some Err.ErrNoProvider) (Option.get _ demoEmpty_acquire_isSome)
    Err.ErrEmpty rfl rfl rfl (Or.inr rfl) (Option.some_get demoEmpty_acquire_isSome).symm
    (by decide)
  have h2 := benign_fallback demoEnvNoUpdate (demoEngine "none") 0 "files" () () Config.zero
    Config.zero ⟨[]⟩ (some Err.ErrNoProvider) (Option.get _ demoNoUpdate_acquire_isSome)
    (Err.other "bad CA") rfl rfl rfl (Or.inr rfl)
    (Option.some_get demoNoUpdate_acquire_isSome).symm (by decide)
  ⟨(h1.1 (Or.inl rfl) cfgB ⟨[]⟩ none () rfl).imp
      (fun _ h => ⟨h.1, (h.2.2.2.1 (Or.inl rfl)).1, h.2.1, (h.2.2.2.1 (Or.inl rfl)).2⟩),
    h2.2 (by decide)⟩

/-! ## Termination of `renderConfig` -/

theorem renderAppend_mono {W : Type} (env : Env W) (depth : Nat)
    (rec rec' : W → Config → Option (Out W (Config × Option Err)))
    (hrec : ∀ w c o, rec w c = some o → rec' w c = some o) (refs : List ConfigReference) :
    ∀ w acc o, renderAppend env depth rec w acc refs = some o →
      renderAppend env depth rec' w acc refs = some o := by
  induction refs with
  | nil => intro w acc o h; exact h
  | cons cfgRef rest ih =>
    intro w acc o h
    rw [renderAppend] at h ⊢
    simp only at h ⊢
    split at h
    · exact h
    · split at h
      · exact h
      · split at h
        · exact absurd h (by simp)
        · rename_i o3 ho3
          simp only [hrec _ _ _ ho3]
          split at h
          · exact h
          · split at h
            · exact absurd h (by simp)
            · rename_i o4 ho4
              simp only [ih _ _ _ ho4]
              exact h

theorem renderConfig_mono {W : Type} (env : Env W) (fuel : Nat) :
    ∀ depth w cfg o, renderConfig env fuel depth w cfg = some o →
      renderConfig env (fuel + 1) depth w cfg = some o := by
  induction fuel with
  | zero => intro depth w cfg o h; simp [renderConfig] at h
  | succ fuel ih =>
    intro depth w cfg o h
    rw [renderConfig] at h ⊢
    split at h
    · simp only at h ⊢
      split at h
      · exact h
      · split at h
        · exact h
        · split at h
          · exact absurd h (by simp)
          · rename_i o3 ho3
            simp only [ih _ _ _ _ ho3]
            exact h
    · split at h
      · exact absurd h (by simp)
      · rename_i o1 ho1
        simp only [renderAppend_mono env depth _ _ (fun w' c' o' ho' => ih _ _ _ _ ho') _ _ _ _ ho1]
        exact h

theorem renderConfig_mono_le {W : Type} (env : Env W) (fuel fuel' : Nat) (hle : fuel ≤ fuel')
    (depth : Nat) (w : W) (cfg : Config) (o : Out W (Config × Option Err))
    (h : renderConfig env fuel depth w cfg = some o) :
    renderConfig env fuel' depth w cfg = some o := by
  induction hle with
  | refl => exact h
  | step _ ih => exact renderConfig_mono env _ _ _ _ _ ih

theorem renderAppend_total {W : Type} (env : Env W) (depth : Nat)
    (rec : W → Config → Option (Out W (Config × Option Err)))
    (refs : List ConfigReference)
    (hrec : ∀ cfgRef ∈ refs, ∀ w c, (fetchReferencedConfig env w cfgRef).val = (c, none) →
      ∀ w', (rec w' c).isSome = true) :
    ∀ w acc, (renderAppend env depth rec w acc refs).isSome = true := by
  induction refs with
  | nil => intro w acc; rfl
  | cons cfgRef rest ih =>
    intro w acc
    have ih' := ih (fun r hr => hrec r (List.mem_cons_of_mem _ hr))
    rw [renderAppend]
    simp only
    split
    · rfl
    · rename_i newCfg heq
      have hsome := hrec cfgRef (List.mem_cons_self _ _) w newCfg heq
      split
      · rfl
      · rename_i w2 _
        split
        · rename_i hnone
          have := hsome w2
          rw [hnone] at this
          exact absurd this (by simp)
        · rename_i o3 _
          split
          · rfl
          · rename_i newCfg' _
            split
            · rename_i hnone
              have := ih' o3.world (env.Append acc newCfg')
              rw [hnone] at this
              exact absurd this (by simp)
            · rfl

theorem renderConfig_depth {W : Type} (env : Env W) (k : Nat) :
    ∀ cfg, DepthLE env k cfg → ∀ depth w, (renderConfig env k depth w cfg).isSome = true := by
  induction k with
  | zero => intro cfg h; cases h
  | succ k ih =>
    intro cfg h depth w
    cases h with
    | intro _ _ hchild =>
      rw [renderConfig]
      split
      · rename_i cfgRef hrep
        simp only
        split
        · rfl
        · rename_i newCfg heq
          have hc : Child env newCfg cfg :=
            ⟨w, cfgRef, by simp [activeRefs, hrep], heq⟩
          split
          · rfl
          · rename_i w2 _
            split
            · rename_i hnone
              have := ih newCfg (hchild _ hc) (depth + 1) w2
              rw [hnone] at this
              exact absurd this (by simp)
            · rfl
      · rename_i hrep
        have htot := renderAppend_total env depth (renderConfig env k (depth + 1))
          cfg.Ignition.Config.Append
          (fun cfgRef hr w' c hv w'' =>
            ih c (hchild _ ⟨w', cfgRef, by simpa [activeRefs, hrep] using hr, hv⟩) (depth + 1) w'')
          w cfg
        split
        · rename_i hnone
          rw [hnone] at htot
          exact absurd htot (by simp)
        · rfl

theorem depthLE_acc {W : Type} (env : Env W) (k : Nat) :
    ∀ cfg, DepthLE env k cfg → Acc (Child env) cfg := by
  induction k with
  | zero => intro cfg h; cases h
  | succ k ih =>
    intro cfg h
    cases h with
    | intro _ _ hchild => exact Acc.intro cfg (fun c' hc => ih c' (hchild c' hc))

theorem renderAppend_total_ex {W : Type} (env : Env W) (depth : Nat)
    (refs : List ConfigReference)
    (hrec : ∀ cfgRef ∈ refs, ∀ w c, (fetchReferencedConfig env w cfgRef).val = (c, none) →
      ∀ w', ∃ fuel, (renderConfig env fuel (depth + 1) w' c).isSome = true) :
    ∀ w acc, ∃ fuel,
      (renderAppend env depth (renderConfig env fuel (depth + 1)) w acc refs).isSome = true := by
  induction refs with
  | nil => intro w acc; exact ⟨0, rfl⟩
  | cons cfgRef rest ih =>
    intro w acc
    have ih' := ih (fun r hr => hrec r (List.mem_cons_of_mem _ hr))
    rcases hv : (fetchReferencedConfig env w cfgRef).val with ⟨newCfg, _ | err⟩
    · rcases hu : env.UpdateHttpTimeoutsAndCAs (fetchReferencedConfig env w cfgRef).world
          (env.Append acc newCfg).Ignition.Timeouts
          (env.Append acc newCfg).Ignition.Security.TLS.CertificateAuthorities with ⟨_ | uerr, w2⟩
      · obtain ⟨f1, hf1⟩ := hrec cfgRef (List.mem_cons_self _ _) w newCfg hv w2
        obtain ⟨o3, ho3⟩ := Option.isSome_iff_exists.mp hf1
        rcases hv3 : o3.val with ⟨newCfg', _ | rerr⟩
        · obtain ⟨f2, hf2⟩ := ih' o3.world (env.Append acc newCfg')
          obtain ⟨o4, ho4⟩ := Option.isSome_iff_exists.mp hf2
          refine ⟨max f1 f2, ?_⟩
          have h3 := renderConfig_mono_le env f1 (max f1 f2) (Nat.le_max_left _ _) _ _ _ _ ho3
          have h4 := renderAppend_mono env depth _ (renderConfig env (max f1 f2) (depth + 1))
            (fun w' c' o' ho' =>
              renderConfig_mono_le env f2 (max f1 f2) (Nat.le_max_right _ _) _ _ _ _ ho')
            rest _ _ _ ho4
          rw [renderAppend]
          simp only [hv, hu, h3, hv3, h4]
          rfl
        · refine ⟨f1, ?_⟩
          rw [renderAppend]
          simp only [hv, hu, ho3, hv3]
          rfl
      · refine ⟨0, ?_⟩
        rw [renderAppend]
        simp only [hv, hu]
        rfl
    · refine ⟨0, ?_⟩
      rw [renderAppend]
      simp only [hv]
      rfl

theorem renderConfig_acc {W : Type} (env : Env W) (cfg : Config) (h : Acc (Child env) cfg) :
    ∀ depth w, ∃ fuel, (renderConfig env fuel depth w cfg).isSome = true := by
  induction h with
  | intro cfg _ ih =>
    intro depth w
    rcases hrep : cfg.Ignition.Config.Replace with _ | cfgRef
    · obtain ⟨fuel, hfuel⟩ := renderAppend_total_ex env depth cfg.Ignition.Config.Append
        (fun cfgRef hr w' c hv w'' =>
          ih c ⟨w', cfgRef, by simpa [activeRefs, hrep] using hr, hv⟩ (depth + 1) w'') w cfg
      obtain ⟨o, ho⟩ := Option.isSome_iff_exists.mp hfuel
      refine ⟨fuel + 1, ?_⟩
      rw [renderConfig]
      simp only [hrep, ho]
      rfl
    · rcases hv : (fetchReferencedConfig env w cfgRef).val with ⟨newCfg, _ | err⟩
      · rcases hu : env.UpdateHttpTimeoutsAndCAs (fetchReferencedConfig env w cfgRef).world
            newCfg.Ignition.Timeouts newCfg.Ignition.Security.TLS.CertificateAuthorities
          with ⟨_ | uerr, w2⟩
        · obtain ⟨fuel, hfuel⟩ :=
            ih newCfg ⟨w, cfgRef, by simp [activeRefs, hrep], hv⟩ (depth + 1) w2
          obtain ⟨o3, ho3⟩ := Option.isSome_iff_exists.mp hfuel
          refine ⟨fuel + 1, ?_⟩
          rw [renderConfig]
          simp only [hrep, hv, hu, ho3]
          rfl
        · refine ⟨1, ?_⟩
          rw [renderConfig]
          simp only [hrep, hv, hu]
          rfl
      · refine ⟨1, ?_⟩
        rw [renderConfig]
        simp only [hrep, hv]
        rfl

theorem renderConfig_self_replace {W : Type} (env : Env W) (cfgRef : ConfigReference)
    (hres : ∀ w, ∃ c, (fetchReferencedConfig env w cfgRef).val = (c, none) ∧
      c.Ignition.Config.Replace = some cfgRef)
    (hupd : ∀ w t cas, (env.UpdateHttpTimeoutsAndCAs w t cas).1 = none) (fuel : Nat) :
    ∀ depth w cfg, cfg.Ignition.Config.Replace = some cfgRef →
      renderConfig env fuel depth w cfg = none := by
  induction fuel with
  | zero => intro depth w cfg _; rfl
  | succ fuel ih =>
    intro depth w cfg hrep
    obtain ⟨c, hc, hcrep⟩ := hres w
    rcases hu : env.UpdateHttpTimeoutsAndCAs (fetchReferencedConfig env w cfgRef).world
        c.Ignition.Timeouts c.Ignition.Security.TLS.CertificateAuthorities with ⟨e1, w2⟩
    have he1 : e1 = none := by
      have := hupd (fetchReferencedConfig env w cfgRef).world c.Ignition.Timeouts
        c.Ignition.Security.TLS.CertificateAuthorities
      rw [hu] at this
      exact this
    subst he1
    rw [renderConfig]
    simp only [hrep, hc, hu, ih _ _ c hcrep]

/-! ## Order of resolution -/

theorem resolvedAt_cons_resolve (d : Nat) (cfgRef : ConfigReference) (l : List Event) :
    resolvedAt d (Event.resolve d cfgRef :: l) = cfgRef :: resolvedAt d l := by
  simp [resolvedAt]

theorem resolvedAt_cons_render (d d' : Nat) (l : List Event) :
    resolvedAt d (Event.render d' :: l) = resolvedAt d l := rfl

theorem resolvedAt_cons_update (d : Nat) (t : Timeouts) (cas : List CaReference)
    (l : List Event) :
    resolvedAt d (Event.updateHttpTimeoutsAndCAs t cas :: l) = resolvedAt d l := rfl

theorem resolvedAt_nil (d : Nat) : resolvedAt d [] = [] := rfl

theorem resolvedAt_append (d : Nat) (l1 l2 : List Event) :
    resolvedAt d (l1 ++ l2) = resolvedAt d l1 ++ resolvedAt d l2 := by
  induction l1 with
  | nil => rfl
  | cons ev rest ih =>
    rw [List.cons_append]
    cases ev
    case resolve d' cfgRef =>
      show (if d' = d then cfgRef :: resolvedAt d (rest ++ l2) else resolvedAt d (rest ++ l2)) =
        (if d' = d then cfgRef :: resolvedAt d rest else resolvedAt d rest) ++ resolvedAt d l2
      rw [ih]
      split <;> simp
    all_goals exact ih

theorem resolvedAt_eq_nil (d : Nat) (l : List Event)
    (h : ∀ ev ∈ l, ∀ cfgRef, ev ≠ Event.resolve d cfgRef) : resolvedAt d l = [] := by
  induction l with
  | nil => rfl
  | cons ev rest ih =>
    have hrest := ih (fun ev' hev' => h ev' (List.mem_cons_of_mem _ hev'))
    have hev := h ev (List.mem_cons_self _ _)
    cases ev <;> simp only [resolvedAt, hrest]
    rename_i d' cfgRef
    split
    · rename_i hd
      subst hd
      exact absurd rfl (hev cfgRef)
    · rfl

theorem fetchReferencedConfig_resolved {W : Type} (env : Env W) (d : Nat) (w : W)
    (cfgRef : ConfigReference) :
    resolvedAt d (fetchReferencedConfig env w cfgRef).events = [] :=
  resolvedAt_eq_nil d _ (fetchReferencedConfig_events env
    (fun ev => ∀ r, ev ≠ Event.resolve d r)
    (fun _ _ _ _ => Event.noConfusion) (fun _ _ _ => Event.noConfusion)
    (fun _ _ => Event.noConfusion) w cfgRef)

theorem renderConfig_deeper_resolved {W : Type} (env : Env W) (fuel d : Nat) (w : W)
    (cfg : Config) (o : Out W (Config × Option Err))
    (h : renderConfig env fuel (d + 1) w cfg = some o) : resolvedAt d o.events = [] :=
  resolvedAt_eq_nil d _ (renderConfig_events env (fun ev => ∀ r, ev ≠ Event.resolve d r) (d + 1)
    (d + 1 + fuel)
    (fun _ _ _ _ => Event.noConfusion) (fun _ _ _ => Event.noConfusion)
    (fun _ _ => Event.noConfusion) (fun _ _ _ => Event.noConfusion)
    (fun _ _ _ _ => Event.noConfusion)
    (fun d' r hd _ r' heq => by
      injection heq with h1 _
      omega)
    fuel (d + 1) w cfg o (Nat.le_refl _) (Nat.le_refl _) h)

theorem renderAppend_resolved {W : Type} (env : Env W) (depth : Nat)
    (rec : W → Config → Option (Out W (Config × Option Err)))
    (hrec : ∀ w c o, rec w c = some o → resolvedAt depth o.events = [])
    (refs : List ConfigReference) :
    ∀ w acc o, renderAppend env depth rec w acc refs = some o →
      resolvedAt depth o.events <+: refs ∧
      (o.val.2 = none → resolvedAt depth o.events = refs) := by
  induction refs with
  | nil =>
    intro w acc o h
    simp only [renderAppend, Option.some.injEq] at h
    subst h
    exact ⟨List.prefix_refl _, fun _ => rfl⟩
  | cons cfgRef rest ih =>
    intro w acc o h
    have hF := fetchReferencedConfig_resolved env depth w cfgRef
    rw [renderAppend] at h
    simp only at h
    split at h
    · simp only [Option.some.injEq] at h
      subst h
      simp [resolvedAt_cons_resolve, hF]
    · split at h
      · simp only [Option.some.injEq] at h
        subst h
        simp [resolvedAt_cons_resolve, resolvedAt_cons_update, resolvedAt_nil,
          resolvedAt_append, hF]
      · split at h
        · exact absurd h (by simp)
        · rename_i o3 ho3
          have h3 := hrec _ _ _ ho3
          split at h
          · simp only [Option.some.injEq] at h
            subst h
            simp [resolvedAt_cons_resolve, resolvedAt_cons_update, resolvedAt_nil,
              resolvedAt_append, hF, h3]
          · split at h
            · exact absurd h (by simp)
            · rename_i o4 ho4
              obtain ⟨hpre, heq⟩ := ih _ _ _ ho4
              simp only [Option.some.injEq] at h
              subst h
              simp only [resolvedAt_cons_resolve, resolvedAt_cons_update, resolvedAt_nil,
                resolvedAt_append, hF, h3, List.nil_append, List.append_nil, List.cons_append]
              refine ⟨?_, ?_⟩
              · exact (List.prefix_cons_inj cfgRef).mpr hpre
              · intro hok
                rw [heq hok]

theorem renderConfig_resolved {W : Type} (env : Env W) (fuel depth : Nat) (w : W)
    (cfg : Config) (o : Out W (Config × Option Err))
    (h : renderConfig env fuel depth w cfg = some o) :
    resolvedAt depth o.events <+: activeRefs cfg ∧
    (o.val.2 = none → resolvedAt depth o.events = activeRefs cfg) := by
  cases fuel with
  | zero => simp [renderConfig] at h
  | succ fuel =>
    rw [renderConfig] at h
    split at h
    · rename_i cfgRef hrep
      have hF := fetchReferencedConfig_resolved env depth w cfgRef
      have hact : activeRefs cfg = [cfgRef] := by simp [activeRefs, hrep]
      simp only at h
      split at h
      · simp only [Option.some.injEq] at h
        subst h
        simp [resolvedAt_cons_resolve, resolvedAt_cons_render, hF, hact]
      · split at h
        · simp only [Option.some.injEq] at h
          subst h
          simp [resolvedAt_cons_resolve, resolvedAt_cons_render, resolvedAt_cons_update,
            resolvedAt_nil, resolvedAt_append, hF, hact]
        · split at h
          · exact absurd h (by simp)
          · rename_i o3 ho3
            have h3 := renderConfig_deeper_resolved env fuel depth _ _ o3 ho3
            simp only [Option.some.injEq] at h
            subst h
            simp [resolvedAt_cons_resolve, resolvedAt_cons_render, resolvedAt_cons_update,
              resolvedAt_nil, resolvedAt_append, hF, hact, h3]
    · rename_i hrep
      have hact : activeRefs cfg = cfg.Ignition.Config.Append := by simp [activeRefs, hrep]
      split at h
      · exact absurd h (by simp)
      · rename_i o1 ho1
        obtain ⟨hpre, heq⟩ := renderAppend_resolved env depth _
          (fun w' c' o' ho' => renderConfig_deeper_resolved env fuel depth w' c' o' ho')
          _ _ _ _ ho1
        simp only [Option.some.injEq] at h
        subst h
        simp only [resolvedAt_cons_render, hact]
        exact ⟨hpre, heq⟩

theorem renderConfig_depths {W : Type} (env : Env W) (fuel depth : Nat) (w : W)
    (cfg : Config) (o : Out W (Config × Option Err))
    (h : renderConfig env fuel depth w cfg = some o) :
    ∀ d', Event.render d' ∈ o.events → depth ≤ d' ∧ d' < depth + fuel := by
  intro d' hmem
  exact renderConfig_events env
    (fun ev => ∀ d', ev = Event.render d' → depth ≤ d' ∧ d' < depth + fuel) depth (depth + fuel)
    (fun _ _ _ _ heq => Event.noConfusion heq) (fun _ _ _ heq => Event.noConfusion heq)
    (fun _ _ heq => Event.noConfusion heq) (fun _ _ _ heq => Event.noConfusion heq)
    (fun d1 hlo hhi d2 heq => by
      injection heq with h1
      omega)
    (fun _ _ _ _ _ heq => Event.noConfusion heq)
    fuel depth w cfg o (Nat.le_refl _) (Nat.le_refl _) h _ hmem d' rfl

/-! ## Termination: the statement -/

/-- C10 (as amended). Termination of `renderConfig` is bounded only by the reference
graph: when the graph of references reachable from `cfg` is well-founded,
`renderConfig` returns for enough fuel, and when that graph has depth at most `k`
it returns within `k` nested invocations (every invocation it makes is at a
recursion depth below `k`); every invocation that returns has resolved
the references it follows (the replace reference, else the append list) in list
order, each at most once, stopping at the first failure, and each exactly once
when it returns without error; there is no other depth or cycle guard: when a
replace reference always resolves to a config carrying the same replace reference
and the fetcher update always succeeds, `renderConfig` produces no result,
whatever the fuel. -/
theorem render_termination {W : Type} (env : Env W) :
    (∀ cfg, Acc (Child env) cfg →
      ∀ depth w, ∃ fuel o, renderConfig env fuel depth w cfg = some o) ∧
    (∀ k cfg, DepthLE env k cfg →
      ∀ depth w, ∃ o, renderConfig env k depth w cfg = some o ∧
        ∀ d', Event.render d' ∈ o.events → depth ≤ d' ∧ d' < depth + k) ∧
    (∀ fuel depth w cfg o, renderConfig env fuel depth w cfg = some o →
      resolvedAt depth o.events <+: activeRefs cfg ∧
      (o.val.2 = none → resolvedAt depth o.events = activeRefs cfg)) ∧
    (∀ cfgRef,
      (∀ w, ∃ c, (fetchReferencedConfig env w cfgRef).val = (c, none) ∧
        c.Ignition.Config.Replace = some cfgRef) →
      (∀ w t cas, (env.UpdateHttpTimeoutsAndCAs w t cas).1 = none) →
      ∀ fuel depth w cfg, cfg.Ignition.Config.Replace = some cfgRef →
        renderConfig env fuel depth w cfg = none) := by
  refine ⟨?_, ?_, ?_, ?_⟩
  · intro cfg hacc depth w
    obtain ⟨fuel, hfuel⟩ := renderConfig_acc env cfg hacc depth w
    exact ⟨fuel, Option.isSome_iff_exists.mp hfuel⟩
  · intro k cfg hk depth w
    obtain ⟨o, ho⟩ := Option.isSome_iff_exists.mp (renderConfig_depth env k cfg hk depth w)
    exact ⟨o, ho, renderConfig_depths env k depth w cfg o ho⟩
  · intro fuel depth w cfg o h
    exact renderConfig_resolved env fuel depth w cfg o h
  · intro cfgRef hres hupd fuel depth w cfg hrep
    exact renderConfig_self_replace env cfgRef hres hupd fuel depth w cfg hrep

theorem no_child_of_leaf {W : Type} (env : Env W) (c c' : Config) (h : activeRefs c = []) :
    ¬Child env c' c := by
  rintro ⟨w, cfgRef, hmem, _⟩
  rw [h] at hmem
  exact absurd hmem (List.not_mem_nil _)

theorem depthLE_leaf {W : Type} (env : Env W) (c : Config) (h : activeRefs c = []) :
    DepthLE env 1 c :=
  DepthLE.intro 0 c (fun c' hc => absurd hc (no_child_of_leaf env c c' h))

theorem demo_depth_cfgAB : DepthLE demoEnv 2 cfgAB := by
  refine DepthLE.intro 1 cfgAB ?_
  rintro c' ⟨w, cfgRef, hmem, hv⟩
  have hrefs : activeRefs cfgAB = [ref "a", ref "b"] := rfl
  rw [hrefs] at hmem
  simp only [List.mem_cons, List.mem_singleton, List.not_mem_nil, or_false] at hmem
  rcases hmem with rfl | rfl
  · have hval : (fetchReferencedConfig demoEnv w (ref "a")).val = (cfgA, none) := rfl
    rw [hval] at hv
    obtain ⟨rfl, _⟩ := Prod.mk.inj hv
    exact depthLE_leaf demoEnv cfgA rfl
  · have hval : (fetchReferencedConfig demoEnv w (ref "b")).val = (cfgB, none) := rfl
    rw [hval] at hv
    obtain ⟨rfl, _⟩ := Prod.mk.inj hv
    exact depthLE_leaf demoEnv cfgB rfl

theorem demo_depth_cfgFail : DepthLE demoEnv 2 cfgFail := by
  refine DepthLE.intro 1 cfgFail ?_
  rintro c' ⟨w, cfgRef, hmem, hv⟩
  have hrefs : activeRefs cfgFail = [ref "missing", ref "b"] := rfl
  rw [hrefs] at hmem
  simp only [List.mem_cons, List.mem_singleton, List.not_mem_nil, or_false] at hmem
  rcases hmem with rfl | rfl
  · have hval : (fetchReferencedConfig demoEnv w (ref "missing")).val =
        (Config.zero, some (Err.other "not found")) := rfl
    rw [hval] at hv
    exact absurd (Prod.mk.inj hv).2 (by simp)
  · have hval : (fetchReferencedConfig demoEnv w (ref "b")).val = (cfgB, none) := rfl
    rw [hval] at hv
    obtain ⟨rfl, _⟩ := Prod.mk.inj hv
    exact depthLE_leaf demoEnv cfgB rfl

theorem demo_render_cfgAB_isSome : (renderConfig demoEnv 2 0 () cfgAB).isSome = true := by
  decide

/-- The claim C10 as stated fails in two places.  First, `cfgFail` appends a source
that is not served and then `b`: its reference graph is well-founded and
`renderConfig` returns, but `b` is never resolved (not "exactly once").  Second,
with a fetcher that rejects updates, the reference `loop` resolves to a config
carrying the same replace reference, yet `renderConfig` does produce a result: the
update error. -/
theorem render_termination_counterexample :
    (Acc (Child demoEnv) cfgFail ∧
      ref "b" ∈ cfgFail.Ignition.Config.Append ∧
      ∃ o, renderConfig demoEnv 1 0 () cfgFail = some o ∧
        resolvedAt 0 o.events = [ref "missing"] ∧
        (resolvedAt 0 o.events).count (ref "b") = 0 ∧
        Event.resolve 0 (ref "b") ∉ o.events) ∧
    ((∀ w, ∃ c, (fetchReferencedConfig demoEnvNoUpdate w (ref "loop")).val = (c, none) ∧
        c.Ignition.Config.Replace = some (ref "loop")) ∧
      cfgLoop.Ignition.Config.Replace = some (ref "loop") ∧
      ∃ o, renderConfig demoEnvNoUpdate 1 0 () cfgLoop = some o ∧
        o.val = (Config.zero, some (Err.other "bad CA"))) :=
  ⟨⟨depthLE_acc demoEnv 2 cfgFail demo_depth_cfgFail, by decide,
      ⟨_, rfl, by decide, by decide, by decide⟩⟩,
    ⟨fun _ => ⟨cfgLoop, rfl, rfl⟩, rfl, ⟨_, rfl, rfl⟩⟩⟩

/-- The config that appends `a` and `b` has a reference graph of depth 2: it renders
with fuel 2, resolving `a` then `b`; the config that replaces itself with `loop`
never renders, whatever the fuel. -/
theorem render_termination_witness :
    (∃ fuel o, renderConfig demoEnv fuel 0 () cfgAB = some o) ∧
    (∃ o, renderConfig demoEnv 2 0 () cfgAB = some o) ∧
    resolvedAt 0 (Option.get (renderConfig demoEnv 2 0 () cfgAB)
      demo_render_cfgAB_isSome).events = [ref "a", ref "b"] ∧
    renderConfig demoEnv 5 0 () cfgLoop = none :=
  have h := render_termination demoEnv
  ⟨h.1 cfgAB (depthLE_acc demoEnv 2 cfgAB demo_depth_cfgAB) 0 (),
    (h.2.1 2 cfgAB demo_depth_cfgAB 0 ()).imp (fun _ ho => ho.1),
    (h.2.2.1 2 0 () cfgAB (Option.get _ demo_render_cfgAB_isSome)
      (Option.some_get demo_render_cfgAB_isSome).symm).2 (by decide),
    h.2.2.2 (ref "loop") (fun _ => ⟨cfgLoop, rfl, rfl⟩) (fun _ _ _ => rfl) 5 0 () cfgLoop rfl⟩

end Ign
